import Mathlib

/-!
Verification of the sitemap-merge worker's merge pipeline.

The definitions below are a shallow embedding of the TypeScript sources
`src/index.ts`, `src/sitemap-builder.ts` and `src/url-transformer.ts`.
JavaScript strings are modelled as Lean `String`s manipulated through their
character lists (the URLs involved are ASCII, so JS UTF-16 code-unit
operations and Lean character operations agree).  The JS `URL` class is
modelled by `parseURL` / `urlToString` below: a URL is scheme, host, path,
search and hash, parsed from `scheme://host/path?search#hash`; the model
covers the http(s) URLs this pipeline manipulates (it does not model
ports, userinfo, percent-encoding or path-segment normalisation, and it
does not lowercase hostnames).  `Array.prototype.sort` with the
`localeCompare` comparator is modelled as a stable sort by code-point
lexicographic order on the location string.
-/

set_option maxRecDepth 100000

/-! ## Character-list string helpers (JS string operations) -/

/-- JS `a.startsWith(b)`. -/
def chStartsWith (s pre : String) : Bool :=
  pre.toList.isPrefixOf s.toList

/-- JS `a.endsWith(b)`. -/
def chEndsWith (s suf : String) : Bool :=
  suf.toList.isSuffixOf s.toList

/-- JS `a.includes(b)`: `b` occurs as a contiguous substring of `a`. -/
def chContains (s sub : String) : Bool :=
  decide (sub.toList <:+: s.toList)

/-- JS `s.slice(0, -1)`: drop the last character. -/
def chDropLast (s : String) : String :=
  String.mk s.toList.dropLast

/-- JS `s.slice(n)` (used for `String.prototype.replace` of a leading
literal prefix of length `n`). -/
def chDrop (s : String) (n : Nat) : String :=
  String.mk (s.toList.drop n)

/-- Lexicographic strict order on character lists (code-point order). -/
def chLt : List Char → List Char → Bool
  | [], [] => false
  | [], _ :: _ => true
  | _ :: _, [] => false
  | a :: as, b :: bs => if a < b then true else if a = b then chLt as bs else false

/-- Lexicographic order on character lists: `a` is not after `b`. -/
def chLe (a b : List Char) : Bool :=
  chLt a b || a == b

/-- JS whitespace characters relevant to `String.prototype.trim`. -/
def isJsWs (c : Char) : Bool :=
  c == ' ' || c == '\t' || c == '\n' || c == '\r'

/-- JS `s.trim()`. -/
def chTrim (s : String) : String :=
  String.mk (((s.toList.dropWhile isJsWs).reverse.dropWhile isJsWs).reverse)

/-- JS `s.split(sep)` for a one-character separator. -/
def splitOnChar (sep : Char) : List Char → List (List Char)
  | [] => [[]]
  | c :: rest =>
    if c = sep then [] :: splitOnChar sep rest
    else
      match splitOnChar sep rest with
      | [] => [[c]]
      | g :: gs => (c :: g) :: gs

/-! ## URL model (`new URL(...)` and `URL.prototype.toString`) -/

/-- The components the worker reads off a JS `URL` object. -/
structure URLParts where
  scheme : String
  host : String
  path : String
  search : String
  hash : String
deriving DecidableEq

/-- Characters that end the hostname of a URL. -/
def hostStop (c : Char) : Bool :=
  c == '/' || c == '?' || c == '#'

/-- Host characters the model does not support (ports, userinfo, IPv6
brackets); URLs containing them in the host position are unparseable in
this model. -/
def hostBad (c : Char) : Bool :=
  c == ':' || c == '@' || c == '['

/-- Characters that end the pathname of a URL. -/
def pathStop (c : Char) : Bool :=
  c == '?' || c == '#'

/-- Parse the remainder of a URL after `scheme://`: hostname up to
`/`, `?` or `#`; pathname up to `?` or `#` (`/` when absent, as in JS);
search from `?` to `#`; hash from `#`. -/
def parseAfterScheme (scheme : String) (cs : List Char) : Option URLParts :=
  let hostCs := cs.takeWhile fun c => !hostStop c
  if hostCs = [] then none
  else if hostCs.any hostBad then none
  else
    let rest := cs.dropWhile fun c => !hostStop c
    let pathCs := rest.takeWhile fun c => !pathStop c
    let rest2 := rest.dropWhile fun c => !pathStop c
    some { scheme := scheme
           host := String.mk hostCs
           path := if pathCs = [] then "/" else String.mk pathCs
           search := String.mk (rest2.takeWhile fun c => !(c == '#'))
           hash := String.mk (rest2.dropWhile fun c => !(c == '#')) }

/-- JS `new URL(s)` (for absolute http(s) URLs; anything else is `none`,
which models the constructor throwing). -/
def parseURL (s : String) : Option URLParts :=
  if "https://".toList.isPrefixOf s.toList then parseAfterScheme "https" (s.toList.drop 8)
  else if "http://".toList.isPrefixOf s.toList then parseAfterScheme "http" (s.toList.drop 7)
  else none

/-- JS `url.toString()` for a parsed URL. -/
def urlToString (u : URLParts) : String :=
  u.scheme ++ "://" ++ u.host ++ u.path ++ u.search ++ u.hash

/-- Host characters the parser accepts. -/
def validHostChar (c : Char) : Bool :=
  !hostStop c && !hostBad c

/-- Well-formedness of URL components, exactly the shape `parseAfterScheme`
produces; `urlToString` round-trips through `parseURL` on such parts. -/
def wfURL (u : URLParts) : Prop :=
  (u.scheme = "https" ∨ u.scheme = "http")
    ∧ u.host.toList ≠ []
    ∧ (∀ c ∈ u.host.toList, validHostChar c = true)
    ∧ u.path.toList ≠ []
    ∧ u.path.toList.head? = some '/'
    ∧ (∀ c ∈ u.path.toList, pathStop c = false)
    ∧ (u.search.toList = [] ∨ u.search.toList.head? = some '?')
    ∧ (∀ c ∈ u.search.toList, (c == '#') = false)
    ∧ (u.hash.toList = [] ∨ u.hash.toList.head? = some '#')

instance : DecidablePred wfURL := fun u => by unfold wfURL; infer_instance

/-! ## Data model (`types.ts`) and configuration constants (`index.ts`,
`sitemap-builder.ts`, `url-transformer.ts`) -/

/-- `SitemapUrl` of `types.ts`. -/
structure SitemapUrl where
  loc : String
  lastmod : Option String := none
  changefreq : Option String := none
  priority : Option String := none
deriving DecidableEq

/-- `SubdomainMapping` of `types.ts` (the source spells the first field
`pathPrefix`). -/
structure SubdomainMapping where
  pathPref : String
  subdomain : String
deriving DecidableEq

def WWW_DOMAIN : String := "www.urbanpubsandbars.com"

def MAIN_DOMAIN : String := "urbanpubsandbars.com"

def CITY_SUBDOMAIN : String := "city.urbanpubsandbars.com"

def CAREERS_SUBDOMAIN : String := "careers.urbanpubsandbars.com"

def BASE_URL : String := "https://www.urbanpubsandbars.com"

/-- `PROTECTED_PATHS` of `index.ts`. -/
def PROTECTED_PATHS : List String :=
  ["/", "/city-by-urban", "/venues", "/private-hire", "/whats-on",
   "/christmas", "/bookings", "/contact"]

/-- `PROTECTED_PATH_PATTERNS` of `index.ts`. -/
def PROTECTED_PATH_PATTERNS : List String :=
  ["/bookings/all-sites"]

def MAX_URLS_PER_SITEMAP : Nat := 50000

/-! ## `sitemap-builder.ts` -/

/-- `normalizeUrl`: remove the trailing slash of the pathname (except for
the root); unparseable URLs are returned as-is (the `catch` branch). -/
def normalizeUrl (url : String) : String :=
  match parseURL url with
  | none => url
  | some u =>
    if u.path = "/" ∨ u.path = "" then url
    else if chEndsWith u.path "/" then urlToString { u with path := chDropLast u.path }
    else url

/-- The loop body of `removeDuplicates`, with the `seen` set as an explicit
list of normalized location strings. -/
def dedupSeen : List String → List SitemapUrl → List SitemapUrl
  | _, [] => []
  | seen, u :: rest =>
    if normalizeUrl u.loc ∈ seen then dedupSeen seen rest
    else u :: dedupSeen (normalizeUrl u.loc :: seen) rest

/-- `removeDuplicates`: keep the first occurrence of each normalized
location. -/
def removeDuplicates (urls : List SitemapUrl) : List SitemapUrl :=
  dedupSeen [] urls

/-- The sort comparator: ascending by location string (the source uses
`localeCompare`; the model uses code-point lexicographic order). -/
def locLe (a b : SitemapUrl) : Prop :=
  chLe a.loc.toList b.loc.toList = true

instance : DecidableRel locLe := fun a b => instDecidableEqBool _ _

/-- `uniqueUrls.sort((a, b) => a.loc.localeCompare(b.loc))`. -/
def sortByLoc (l : List SitemapUrl) : List SitemapUrl :=
  List.insertionSort locLe l

/-- The deduplicated, sorted entry list that `buildSitemapXml` serializes. -/
def builderEntries (urls : List SitemapUrl) : List SitemapUrl :=
  sortByLoc (removeDuplicates urls)

/-- `escapeXml`, per character.  The source applies five global
`replace` calls in the order `&`, `<`, `>`, `"`, `'`; since no replacement
string contains a character that a later replace rewrites, that equals
this character-wise map. -/
def escapeChar (c : Char) : String :=
  if c = '&' then "&amp;"
  else if c = '<' then "&lt;"
  else if c = '>' then "&gt;"
  else if c = '"' then "&quot;"
  else if c = '\'' then "&apos;"
  else String.mk [c]

/-- `escapeXml`. -/
def escapeXml (text : String) : String :=
  String.join (text.toList.map escapeChar)

def xmlDecl : String :=
  "<?xml version=\"1.0\" encoding=\"UTF-8\"?>\n"

def SITEMAP_NAMESPACE : String :=
  "http://www.sitemaps.org/schemas/sitemap/0.9"

/-- One optional child element of a `<url>` block.  JS `if (url.lastmod)`
is falsy both for a missing and for an empty string field. -/
def optField (tag : String) (v : Option String) : String :=
  match v with
  | none => ""
  | some s =>
    if s = "" then ""
    else "    <" ++ tag ++ ">" ++ escapeXml s ++ "</" ++ tag ++ ">\n"

/-- One `<url>` block of the urlset serialization loop. -/
def urlXmlBlock (u : SitemapUrl) : String :=
  "  <url>\n    <loc>" ++ escapeXml u.loc ++ "</loc>\n"
    ++ optField "lastmod" u.lastmod
    ++ optField "changefreq" u.changefreq
    ++ optField "priority" u.priority
    ++ "  </url>\n"

/-- The `<urlset>` document built for an (already deduplicated and sorted)
entry list. -/
def urlsetXml (l : List SitemapUrl) : String :=
  xmlDecl ++ "<urlset xmlns=\"" ++ SITEMAP_NAMESPACE ++ "\">\n"
    ++ String.join (l.map urlXmlBlock) ++ "</urlset>"

/-- The chunking loop of `buildSitemapIndex`: slices of
`MAX_URLS_PER_SITEMAP` entries. -/
def chunkList (l : List SitemapUrl) : List (List SitemapUrl) :=
  if h : l = [] then []
  else
    l.take MAX_URLS_PER_SITEMAP :: chunkList (l.drop MAX_URLS_PER_SITEMAP)
termination_by l.length
decreasing_by
  simp only [List.length_drop, MAX_URLS_PER_SITEMAP]
  have : 0 < l.length := List.length_pos.mpr h
  omega

/-- One `<sitemap>` reference block of the index document. -/
def sitemapRefBlock (n : Nat) : String :=
  "  <sitemap>\n    <loc>"
    ++ escapeXml ("https://www.urbanpubsandbars.com/sitemap-" ++ toString n ++ ".xml")
    ++ "</loc>\n  </sitemap>\n"

/-- `buildSitemapIndex`: one `sitemap-{i+1}.xml` reference per chunk. -/
def buildSitemapIndex (urls : List SitemapUrl) : String :=
  xmlDecl ++ "<sitemapindex xmlns=\"" ++ SITEMAP_NAMESPACE ++ "\">\n"
    ++ String.join (((List.range (chunkList urls).length).map fun i => sitemapRefBlock (i + 1)))
    ++ "</sitemapindex>"

/-- `buildSitemapXml`: deduplicate, sort, then emit either a single urlset
or (above the limit) a sitemap index. -/
def buildSitemapXml (urls : List SitemapUrl) : String :=
  let sortedUrls := builderEntries urls
  if sortedUrls.length > MAX_URLS_PER_SITEMAP then buildSitemapIndex sortedUrls
  else urlsetXml sortedUrls

/-- The root-URL test of `validateUrlsAreWwwOnly` (same four disjuncts as
`isRootUrl` in `index.ts`, with the base URL written out literally). -/
def isRootUrl (url path : String) : Bool :=
  path == "/" || path == ""
    || url == "https://www.urbanpubsandbars.com"
    || url == "https://www.urbanpubsandbars.com/"

def subdomainDomains : List String :=
  ["city.urbanpubsandbars.com", "careers.urbanpubsandbars.com"]

/-- The per-entry classification of `validateUrlsAreWwwOnly`: hostname must
be the www domain; root URLs are then accepted outright; other URLs must
not contain a source subdomain as a substring; unparseable URLs go to the
`catch` branch and are invalid. -/
def classifyWww (u : SitemapUrl) : Bool :=
  match parseURL u.loc with
  | none => false
  | some p =>
    if p.host ≠ WWW_DOMAIN then false
    else if isRootUrl u.loc p.path then true
    else if subdomainDomains.any (fun d => chContains u.loc d) then false
    else true

/-- `validateUrlsAreWwwOnly`: one pass pushing each entry onto `valid` or
`invalid`. -/
def validateUrlsAreWwwOnly (urls : List SitemapUrl) : List SitemapUrl × List SitemapUrl :=
  (urls.filter classifyWww, urls.filter fun u => !classifyWww u)

/-! ## `index.ts`: deduplication against city-transformed entries -/

/-- `isProtectedPath` (exact membership). -/
def isProtectedPath (path : String) : Bool :=
  PROTECTED_PATHS.contains path

/-- `matchesProtectedPattern` (substring match). -/
def matchesProtectedPattern (path : String) : Bool :=
  PROTECTED_PATH_PATTERNS.any fun pat => chContains path pat

/-- The city-path candidate one entry contributes to the `cityPaths` set:
entries whose pathname starts with `/city-by-urban/` contribute the
pathname with that prefix removed (`path.replace('/city-by-urban', '')`
removes the first occurrence, which under the `startsWith` guard is the
leading 14 characters), unless the stripped path is an exact protected
path. -/
def cityPathCandidate (u : SitemapUrl) : Option String :=
  match parseURL u.loc with
  | none => none
  | some parts =>
    if chStartsWith parts.path "/city-by-urban/" then
      if isProtectedPath (chDrop parts.path 14) then none
      else some (chDrop parts.path 14)
    else none

/-- The `cityPaths` set of `removeDuplicateMainSiteUrls` (as a list; only
membership is consumed). -/
def cityPathsOf (urls : List SitemapUrl) : List String :=
  urls.filterMap cityPathCandidate

/-- The filter predicate of `removeDuplicateMainSiteUrls`: keep
city-transformed entries, the root, exact protected paths, protected
patterns, and anything whose path has no city-transformed duplicate;
unparseable entries are kept (the `catch` branch). -/
def dedupKeep (cityPaths : List String) (u : SitemapUrl) : Bool :=
  match parseURL u.loc with
  | none => true
  | some parts =>
    if chStartsWith parts.path "/city-by-urban/" then true
    else if isRootUrl u.loc parts.path then true
    else if isProtectedPath parts.path then true
    else if matchesProtectedPattern parts.path then true
    else if cityPaths.contains parts.path then false
    else true

/-- `removeDuplicateMainSiteUrls` (without removal tracking). -/
def removeDuplicateMainSiteUrls (urls : List SitemapUrl) : List SitemapUrl :=
  urls.filter (dedupKeep (cityPathsOf urls))

/-! ## `index.ts`: protected-path completion inside `generateMergedSitemap` -/

/-- The local `normalizePath` of `generateMergedSitemap`. -/
def normalizePath (pathname : String) : String :=
  if pathname = "/" ∨ pathname = "" then "/"
  else if chEndsWith pathname "/" then chDropLast pathname
  else pathname

/-- The `exists` check for a protected path's main-site version: a valid
entry with the same normalized pathname, www hostname, and no
`/city-by-urban` in its location string; entries whose location does not
parse are compared by normalized location string (the `catch` branch). -/
def mainPathExists (path : String) (valid : List SitemapUrl) : Bool :=
  valid.any fun u =>
    match parseURL u.loc with
    | some parts =>
      normalizePath parts.path == normalizePath path
        && parts.host == WWW_DOMAIN
        && !chContains u.loc "/city-by-urban"
    | none => normalizePath (BASE_URL ++ path) == normalizePath u.loc

/-- One iteration of the main-site completion loop: unshift a synthesized
entry when the protected path is missing. -/
def ensureMainPath (valid : List SitemapUrl) (path : String) : List SitemapUrl :=
  if mainPathExists path valid then valid
  else { loc := BASE_URL ++ path } :: valid

/-- The main-site completion loop over `PROTECTED_PATHS`. -/
def ensureMainPaths (valid : List SitemapUrl) : List SitemapUrl :=
  PROTECTED_PATHS.foldl ensureMainPath valid

/-- The `exists` check for a protected path's city version (by normalized
pathname only). -/
def cityPathExists (path : String) (valid : List SitemapUrl) : Bool :=
  valid.any fun u =>
    match parseURL u.loc with
    | some parts => normalizePath parts.path == normalizePath ("/city-by-urban" ++ path)
    | none => normalizePath u.loc == normalizePath (BASE_URL ++ "/city-by-urban" ++ path)

/-- The `findIndex` predicate locating the main-site anchor entry after
which a synthesized city entry is inserted. -/
def mainAnchor (path : String) (u : SitemapUrl) : Bool :=
  match parseURL u.loc with
  | some parts =>
    normalizePath parts.path == normalizePath path
      && parts.host == WWW_DOMAIN
      && !chContains u.loc "/city-by-urban"
  | none => false

/-- One iteration of the city completion loop: insert the synthesized city
entry right after its main-site anchor, or append when no anchor exists. -/
def ensureCityPath (valid : List SitemapUrl) (path : String) : List SitemapUrl :=
  if cityPathExists path valid then valid
  else
    match valid.findIdx? (mainAnchor path) with
    | some i => valid.insertIdx (i + 1) { loc := BASE_URL ++ "/city-by-urban" ++ path }
    | none => valid ++ [{ loc := BASE_URL ++ "/city-by-urban" ++ path }]

/-- The city completion loop (every protected path except the city section
root itself). -/
def ensureCityPaths (valid : List SitemapUrl) : List SitemapUrl :=
  (PROTECTED_PATHS.filter fun p => p ≠ "/city-by-urban").foldl ensureCityPath valid

/-- The final entry list `generateMergedSitemap` hands to the Builder:
deduplicate against city versions, keep the www-valid entries, then
complete the protected paths in both forms. -/
def completedUrls (allUrls : List SitemapUrl) : List SitemapUrl :=
  ensureCityPaths (ensureMainPaths (validateUrlsAreWwwOnly (removeDuplicateMainSiteUrls allUrls)).1)

/-- The entries `buildSitemapXml` serializes for a given merged input. -/
def finalEntries (allUrls : List SitemapUrl) : List SitemapUrl :=
  builderEntries (completedUrls allUrls)

/-- The list of entries a settled fetch contributes (`Promise.allSettled`
graceful degradation: a rejected source contributes nothing). -/
def settledUrls (r : Except String (List SitemapUrl)) : List SitemapUrl :=
  match r with
  | .ok l => l
  | .error _ => []

/-- The error summary built when every source failed. -/
def failedSummary (tag : String) (r : Except String (List SitemapUrl)) : List String :=
  match r with
  | .ok _ => []
  | .error e => [tag ++ e]

/-- `generateMergedSitemap` from the point where the three fetches have
settled: concatenate the fulfilled sources, fail when nothing was
collected, run the pipeline, fail when no valid URL remains (after
completion, where the source performs this check), and build the XML. -/
def generateFromResults (mainR cityR careersR : Except String (List SitemapUrl)) :
    Except String String :=
  let allUrls := settledUrls mainR ++ settledUrls cityR ++ settledUrls careersR
  if allUrls = [] then
    .error ("All sitemap sources failed: "
      ++ String.intercalate "; "
        (failedSummary "Main: " mainR ++ failedSummary "City: " cityR
          ++ failedSummary "Careers: " careersR))
  else
    let valid := completedUrls allUrls
    if valid = [] then .error "No valid URLs remaining after validation"
    else .ok (buildSitemapXml valid)

/-! ## `url-transformer.ts` -/

/-- `parseMappings`: split the configuration string on commas, each part on
colons, trim, and keep the pairs whose first two segments are both
non-empty. -/
def parseMappings (pathMappings : String) : List SubdomainMapping :=
  ((splitOnChar ',' pathMappings.toList).map fun p => chTrim (String.mk p)).filterMap
    fun part =>
      match (splitOnChar ':' part.toList).map fun s => chTrim (String.mk s) with
      | a :: b :: _ => if a ≠ "" ∧ b ≠ "" then some ⟨a, b⟩ else none
      | _ => none

/-- `transformWithPrefix`: `https://{newHostname}/{pathPrefix}{pathname}`
with search and hash carried over. -/
def transformPrefixed (u : URLParts) (newHostname pref : String) : String :=
  urlToString { scheme := "https", host := newHostname,
                path := "/" ++ pref ++ u.path, search := u.search, hash := u.hash }

/-- `validateTransformation`: the result must parse, be on the www domain,
and its hostname must not contain a source subdomain; a violation throws
(modelled as `Except.error`). -/
def validateTransformation (transformed original : String) : Except String String :=
  match parseURL transformed with
  | none => .error ("Transform validation failed: " ++ original)
  | some t =>
    if t.host ≠ WWW_DOMAIN then
      .error ("Transform validation failed: " ++ original ++ " -> " ++ transformed)
    else if chContains t.host CITY_SUBDOMAIN || chContains t.host CAREERS_SUBDOMAIN then
      .error ("Subdomain URL detected in transformation result: " ++ transformed)
    else .ok transformed

/-- `getSourceDomain`. -/
def getSourceDomain (url : String) : String :=
  match parseURL url with
  | none => "unknown"
  | some u =>
    if u.host = WWW_DOMAIN ∨ u.host = MAIN_DOMAIN then "main"
    else if u.host = CITY_SUBDOMAIN then "city"
    else if u.host = CAREERS_SUBDOMAIN then "careers"
    else "unknown"

/-- `transformUrl` of `SubdomainTransformer`.  Note that the method never
consults the parsed mappings: the city and careers prefixes are hardcoded,
and the careers branch alone special-cases the root path.  An unparseable
URL throws (`catch` rethrows). -/
def transformUrl (url : String) (sourceDomain : String) : Except String String :=
  match parseURL url with
  | none => .error ("Error transforming URL " ++ url)
  | some u =>
    if u.host = WWW_DOMAIN then .ok url
    else if u.host = MAIN_DOMAIN then .ok (urlToString { u with host := WWW_DOMAIN })
    else if sourceDomain = "main" then .ok (urlToString { u with host := WWW_DOMAIN })
    else if u.host = CITY_SUBDOMAIN then
      validateTransformation (transformPrefixed u WWW_DOMAIN "city-by-urban") url
    else if u.host = CAREERS_SUBDOMAIN then
      if u.path = "/" ∨ u.path = "" then
        validateTransformation
          (urlToString { scheme := "https", host := WWW_DOMAIN, path := "/work-with-us",
                         search := u.search, hash := u.hash }) url
      else validateTransformation (transformPrefixed u WWW_DOMAIN "work-with-us") url
    else .ok url

/-- The normalized pathname of an entry (the identity the spec's
uniqueness and protected-path statements are phrased in). -/
def pathNormOf (u : SitemapUrl) : Option String :=
  (parseURL u.loc).map fun parts => normalizePath parts.path

/-! ## List and string helper lemmas -/

theorem takeWhile_append_of (p : Char → Bool) (l₁ l₂ : List Char)
    (h₁ : ∀ a ∈ l₁, p a = true) (h₂ : ∀ a, l₂.head? = some a → p a = false) :
    (l₁ ++ l₂).takeWhile p = l₁ := by
  induction l₁ with
  | nil =>
    cases l₂ with
    | nil => rfl
    | cons a t => simp [List.takeWhile_cons, h₂ a rfl]
  | cons a t ih =>
    rw [List.cons_append, List.takeWhile_cons_of_pos (h₁ a (by simp))]
    exact congrArg (a :: ·) (ih fun c hc => h₁ c (by simp [hc]))

theorem dropWhile_append_of (p : Char → Bool) (l₁ l₂ : List Char)
    (h₁ : ∀ a ∈ l₁, p a = true) (h₂ : ∀ a, l₂.head? = some a → p a = false) :
    (l₁ ++ l₂).dropWhile p = l₂ := by
  induction l₁ with
  | nil =>
    cases l₂ with
    | nil => rfl
    | cons a t => simp [List.dropWhile_cons, h₂ a rfl]
  | cons a t ih =>
    rw [List.cons_append, List.dropWhile_cons_of_pos (h₁ a (by simp))]
    exact ih fun c hc => h₁ c (by simp [hc])

theorem takeWhile_head (p : Char → Bool) (l : List Char) (a : Char) (t : List Char)
    (h : l.takeWhile p = a :: t) : l.head? = some a := by
  cases l with
  | nil => simp at h
  | cons b s =>
    rw [List.takeWhile_cons] at h
    by_cases hb : p b = true
    · simp [hb] at h
      simp [h.1]
    · simp [hb] at h

theorem mem_of_mem_takeWhile (p : Char → Bool) (l : List Char) (a : Char)
    (h : a ∈ l.takeWhile p) : a ∈ l := by
  induction l with
  | nil => simp at h
  | cons b s ih =>
    rw [List.takeWhile_cons] at h
    by_cases hb : p b = true
    · simp [hb] at h
      rcases h with h | h
      · simp [h]
      · exact List.mem_cons_of_mem _ (ih h)
    · simp [hb] at h

theorem dropWhile_head (p : Char → Bool) (l : List Char) (a : Char)
    (h : (l.dropWhile p).head? = some a) : p a = false := by
  have := List.head?_dropWhile_not p l
  rw [h] at this
  exact this

theorem isPrefixOf_append_self (l₁ l₂ : List Char) : l₁.isPrefixOf (l₁ ++ l₂) = true :=
  List.isPrefixOf_iff_prefix.mpr ⟨l₂, rfl⟩

theorem strToList_append (a b : String) : (a ++ b).toList = a.toList ++ b.toList :=
  String.data_append a b

/-! ## URL round-trip lemmas -/

theorem validHostChar_not_stop {c : Char} (h : validHostChar c = true) : hostStop c = false := by
  simp only [validHostChar, Bool.and_eq_true, Bool.not_eq_true'] at h
  exact h.1

theorem validHostChar_not_bad {c : Char} (h : validHostChar c = true) : hostBad c = false := by
  simp only [validHostChar, Bool.and_eq_true, Bool.not_eq_true'] at h
  exact h.2

theorem parseAfterScheme_parts (scheme host path search hashStr : String)
    (hh : host.toList ≠ []) (hhc : ∀ c ∈ host.toList, validHostChar c = true)
    (hp : path.toList ≠ []) (hph : path.toList.head? = some '/')
    (hpc : ∀ c ∈ path.toList, pathStop c = false)
    (hs : search.toList = [] ∨ search.toList.head? = some '?')
    (hsc : ∀ c ∈ search.toList, (c == '#') = false)
    (hha : hashStr.toList = [] ∨ hashStr.toList.head? = some '#') :
    parseAfterScheme scheme
        (host.toList ++ (path.toList ++ (search.toList ++ hashStr.toList)))
      = some ⟨scheme, host, path, search, hashStr⟩ := by
  have tailHead : ∀ a, (path.toList ++ (search.toList ++ hashStr.toList)).head? = some a →
      (fun c => !hostStop c) a = false := by
    intro a ha
    rw [List.head?_append_of_ne_nil _ hp, hph] at ha
    cases ha
    simp [hostStop]
  have htake : ((host.toList ++ (path.toList ++ (search.toList ++ hashStr.toList))).takeWhile
      fun c => !hostStop c) = host.toList :=
    takeWhile_append_of _ _ _
      (fun a ha => by simp [validHostChar_not_stop (hhc a ha)]) tailHead
  have hdrop : ((host.toList ++ (path.toList ++ (search.toList ++ hashStr.toList))).dropWhile
      fun c => !hostStop c) = path.toList ++ (search.toList ++ hashStr.toList) :=
    dropWhile_append_of _ _ _
      (fun a ha => by simp [validHostChar_not_stop (hhc a ha)]) tailHead
  have searchHashHead : ∀ a, (search.toList ++ hashStr.toList).head? = some a →
      (fun c => !pathStop c) a = false := by
    intro a ha
    rcases hs with hsnil | hshead
    · rw [hsnil, List.nil_append] at ha
      rcases hha with hhnil | hhhead
      · rw [hhnil] at ha
        simp at ha
      · rw [hhhead] at ha
        cases ha
        simp [pathStop]
    · rw [List.head?_append_of_ne_nil _ (by intro hnil; rw [hnil] at hshead; simp at hshead),
        hshead] at ha
      cases ha
      simp [pathStop]
  have ptake : ((path.toList ++ (search.toList ++ hashStr.toList)).takeWhile
      fun c => !pathStop c) = path.toList :=
    takeWhile_append_of _ _ _ (fun a ha => by simp [hpc a ha]) searchHashHead
  have pdrop : ((path.toList ++ (search.toList ++ hashStr.toList)).dropWhile
      fun c => !pathStop c) = search.toList ++ hashStr.toList :=
    dropWhile_append_of _ _ _ (fun a ha => by simp [hpc a ha]) searchHashHead
  have hashHead : ∀ a, hashStr.toList.head? = some a → (fun c => !(c == '#')) a = false := by
    intro a ha
    rcases hha with hhnil | hhhead
    · rw [hhnil] at ha
      simp at ha
    · rw [hhhead] at ha
      cases ha
      simp
  have stake : ((search.toList ++ hashStr.toList).takeWhile fun c => !(c == '#'))
      = search.toList :=
    takeWhile_append_of _ _ _ (fun a ha => by simp [hsc a ha]) hashHead
  have sdrop : ((search.toList ++ hashStr.toList).dropWhile fun c => !(c == '#'))
      = hashStr.toList :=
    dropWhile_append_of _ _ _ (fun a ha => by simp [hsc a ha]) hashHead
  have hany : host.toList.any hostBad = false := by
    rw [List.any_eq_false]
    intro c hc
    simp [validHostChar_not_bad (hhc c hc)]
  unfold parseAfterScheme
  simp only [htake, hdrop, ptake, pdrop, stake, sdrop]
  rw [if_neg hh, if_neg (by rw [hany]; exact Bool.false_ne_true)]
  rw [if_neg hp]
  rfl

theorem parseURL_urlToString (u : URLParts) (h : wfURL u) :
    parseURL (urlToString u) = some u := by
  obtain ⟨scheme, host, path, search, hashStr⟩ := u
  obtain ⟨hsch, hh, hhc, hp, hph, hpc, hs, hsc, hha⟩ := h
  have hbody := parseAfterScheme_parts scheme host path search hashStr
    hh hhc hp hph hpc hs hsc hha
  rcases hsch with h1 | h1 <;> subst h1
  · have hlist : (urlToString ⟨"https", host, path, search, hashStr⟩).toList
        = "https://".toList ++ (host.toList ++ (path.toList ++ (search.toList ++ hashStr.toList))) := by
      simp [urlToString, strToList_append]
    unfold parseURL
    rw [hlist, if_pos (isPrefixOf_append_self _ _)]
    have hdrop8 : List.drop 8
        ("https://".toList ++ (host.toList ++ (path.toList ++ (search.toList ++ hashStr.toList))))
        = host.toList ++ (path.toList ++ (search.toList ++ hashStr.toList)) :=
      List.drop_left "https://".toList _
    rw [hdrop8]
    exact hbody
  · have hlist : (urlToString ⟨"http", host, path, search, hashStr⟩).toList
        = "http://".toList ++ (host.toList ++ (path.toList ++ (search.toList ++ hashStr.toList))) := by
      simp [urlToString, strToList_append]
    have hfalse : "https://".toList.isPrefixOf
        ("http://".toList ++ (host.toList ++ (path.toList ++ (search.toList ++ hashStr.toList))))
        = false := rfl
    unfold parseURL
    rw [hlist, if_neg (fun hcontra => Bool.false_ne_true (hfalse ▸ hcontra)),
      if_pos (isPrefixOf_append_self _ _)]
    have hdrop7 : List.drop 7
        ("http://".toList ++ (host.toList ++ (path.toList ++ (search.toList ++ hashStr.toList))))
        = host.toList ++ (path.toList ++ (search.toList ++ hashStr.toList)) :=
      List.drop_left "http://".toList _
    rw [hdrop7]
    exact hbody

theorem parseAfterScheme_wf (scheme : String) (cs : List Char) (u : URLParts)
    (hsch : scheme = "https" ∨ scheme = "http")
    (h : parseAfterScheme scheme cs = some u) : wfURL u := by
  simp only [parseAfterScheme] at h
  split at h
  · cases h
  · split at h
    · cases h
    · rename_i hne hbadf
      injection h with h
      subst h
      refine ⟨hsch, hne, ?_, ?_, ?_, ?_, ?_, ?_, ?_⟩
      · intro c hc
        have hstop := List.mem_takeWhile_imp hc
        have hbad : hostBad c = false := by
          rcases hb : hostBad c
          · rfl
          · exact absurd (List.any_eq_true.mpr ⟨c, hc, hb⟩) hbadf
        simp only [Bool.not_eq_true'] at hstop
        simp [validHostChar, hstop, hbad]
      · split
        · simp
        · rename_i hpne
          simpa using hpne
      · split
        · rfl
        · rename_i hpne
          rcases hc : (cs.dropWhile fun c => !hostStop c).takeWhile fun c => !pathStop c with
            _ | ⟨c, t⟩
          · exact absurd hc hpne
          · have hhead := takeWhile_head _ _ _ _ hc
            have hstop := dropWhile_head _ _ _ hhead
            have hmem : c ∈ (cs.dropWhile fun c => !hostStop c).takeWhile fun c => !pathStop c := by
              rw [hc]; simp
            have hps := List.mem_takeWhile_imp hmem
            simp only [Bool.not_eq_true'] at hps
            simp only [Bool.not_eq_false'] at hstop
            simp only [hostStop, Bool.or_eq_true, beq_iff_eq] at hstop
            simp only [pathStop, Bool.or_eq_false_iff, beq_eq_false_iff_ne, ne_eq] at hps
            rcases hstop with (h1 | h1) | h1
            · simp [hc, h1]
            · exact absurd h1 hps.1
            · exact absurd h1 hps.2
      · intro c hc
        split at hc
        · simp only [show ("/" : String).toList = ['/'] from rfl] at hc
          simp at hc
          simp [hc, pathStop]
        · have := List.mem_takeWhile_imp hc
          simpa using this
      · rcases hc : ((cs.dropWhile fun c => !hostStop c).dropWhile fun c => !pathStop c).takeWhile
            fun c => !(c == '#') with _ | ⟨c, t⟩
        · left; simp [hc]
        · right
          have hhead := takeWhile_head _ _ _ _ hc
          have hstop := dropWhile_head _ _ _ hhead
          have hmem : c ∈ ((cs.dropWhile fun c => !hostStop c).dropWhile fun c => !pathStop c).takeWhile
              fun c => !(c == '#') := by rw [hc]; simp
          have hns := List.mem_takeWhile_imp hmem
          simp only [Bool.not_eq_true'] at hns
          simp only [Bool.not_eq_false'] at hstop
          simp only [pathStop, Bool.or_eq_true, beq_iff_eq] at hstop
          rcases hstop with h1 | h1
          · simp [hc, h1]
          · rw [h1] at hns
            simp at hns
      · intro c hc
        have := List.mem_takeWhile_imp hc
        simpa using this
      · rcases hc : ((cs.dropWhile fun c => !hostStop c).dropWhile fun c => !pathStop c).dropWhile
            fun c => !(c == '#') with _ | ⟨c, t⟩
        · left; simp [hc]
        · right
          have hstop : (fun c => !(c == '#')) c = false := by
            apply dropWhile_head (fun c => !(c == '#'))
              ((cs.dropWhile fun c => !hostStop c).dropWhile fun c => !pathStop c)
            rw [hc]; rfl
          simp only [Bool.not_eq_false', beq_iff_eq] at hstop
          simp [hc, hstop]

theorem parseURL_wf {s : String} {u : URLParts} (h : parseURL s = some u) : wfURL u := by
  unfold parseURL at h
  split at h
  · exact parseAfterScheme_wf _ _ _ (Or.inl rfl) h
  · split at h
    · exact parseAfterScheme_wf _ _ _ (Or.inr rfl) h
    · cases h

/-- Normalizing a parseable URL yields a URL that parses to the same
components with the pathname trailing slash stripped (except root). -/
theorem parseURL_normalizeUrl {x : String} {u : URLParts} (h : parseURL x = some u) :
    parseURL (normalizeUrl x) = some { u with path := normalizePath u.path } := by
  have hwf := parseURL_wf h
  obtain ⟨hsch, hh, hhc, hp, hph, hpc, hs, hsc, hha⟩ := hwf
  simp only [normalizeUrl, h]
  by_cases hroot : u.path = "/" ∨ u.path = ""
  · rw [if_pos hroot]
    rcases hroot with h1 | h1
    · have hnp : normalizePath u.path = u.path := by rw [h1]; rfl
      rw [hnp]
      exact h
    · rw [h1] at hph
      simp at hph
  · rw [if_neg hroot]
    by_cases hslash : chEndsWith u.path "/" = true
    · rw [if_pos hslash]
      have hsuf : ['/'] <:+ u.path.toList := by
        have := List.isSuffixOf_iff_suffix.mp hslash
        simpa using this
      obtain ⟨t, ht⟩ := hsuf
      have htoList : (chDropLast u.path).toList = t := by
        show u.path.toList.dropLast = t
        rw [← ht]
        exact List.dropLast_concat
      have htne : t ≠ [] := by
        intro hnil
        rw [hnil, List.nil_append] at ht
        have : u.path = "/" := String.toList_inj.mp (by rw [← ht]; rfl)
        exact hroot (Or.inl this)
      have hnp : normalizePath u.path = chDropLast u.path := by
        simp only [normalizePath]
        rw [if_neg hroot, if_pos hslash]
      rw [hnp]
      apply parseURL_urlToString
      refine ⟨hsch, hh, hhc, ?_, ?_, ?_, hs, hsc, hha⟩
      · simpa only [htoList] using htne
      · rw [htoList]
        rcases t with _ | ⟨c, t2⟩
        · exact absurd rfl htne
        · rw [← ht] at hph
          simpa using hph
      · intro c hc
        rw [htoList] at hc
        exact hpc c (by rw [← ht]; exact List.mem_append_left _ hc)
    · rw [if_neg hslash]
      have hnp : normalizePath u.path = u.path := by
        simp only [normalizePath]
        rw [if_neg hroot, if_neg hslash]
      rw [hnp]
      exact h

/-! ## Deduplication and sorting lemmas -/

/-- Entries with the same normalized location have the same normalized
pathname. -/
theorem pathNorm_eq_of_key_eq {a b : SitemapUrl} {ua : URLParts}
    (ha : parseURL a.loc = some ua) (hk : normalizeUrl a.loc = normalizeUrl b.loc) :
    pathNormOf b = pathNormOf a := by
  have hna := parseURL_normalizeUrl ha
  rw [hk] at hna
  cases hb : parseURL b.loc with
  | none =>
    have hid : normalizeUrl b.loc = b.loc := by simp [normalizeUrl, hb]
    rw [hid, hb] at hna
    cases hna
  | some ub =>
    have hnb := parseURL_normalizeUrl hb
    rw [hna] at hnb
    injection hnb with hrec
    have hpath := congrArg URLParts.path hrec
    simp only at hpath
    simp only [pathNormOf, ha, hb, Option.map_some']
    rw [hpath]

theorem dedupSeen_sublist (seen : List String) (l : List SitemapUrl) :
    (dedupSeen seen l).Sublist l := by
  induction l generalizing seen with
  | nil => simp [dedupSeen]
  | cons u rest ih =>
    rw [dedupSeen]
    split
    · exact (ih seen).cons u
    · exact (ih _).cons₂ u

theorem mem_dedupSeen_key (seen : List String) (l : List SitemapUrl) :
    ∀ u ∈ l, normalizeUrl u.loc ∉ seen →
      ∃ v ∈ dedupSeen seen l, normalizeUrl v.loc = normalizeUrl u.loc := by
  induction l generalizing seen with
  | nil => intro u hu; simp at hu
  | cons w rest ih =>
    intro u hu hns
    rw [dedupSeen]
    rcases List.mem_cons.mp hu with rfl | hu2
    · rw [if_neg hns]
      exact ⟨u, by simp, rfl⟩
    · by_cases hw : normalizeUrl w.loc ∈ seen
      · rw [if_pos hw]
        exact ih seen u hu2 hns
      · rw [if_neg hw]
        by_cases hsame : normalizeUrl u.loc = normalizeUrl w.loc
        · exact ⟨w, by simp, hsame.symm⟩
        · obtain ⟨v, hv, hkey⟩ := ih (normalizeUrl w.loc :: seen) u hu2
            (by simp [hns, hsame])
          exact ⟨v, List.mem_cons_of_mem _ hv, hkey⟩

theorem dedupSeen_key_not_seen (seen : List String) (l : List SitemapUrl) :
    ∀ v ∈ dedupSeen seen l, normalizeUrl v.loc ∉ seen := by
  induction l generalizing seen with
  | nil => intro v hv; simp [dedupSeen] at hv
  | cons w rest ih =>
    intro v hv
    rw [dedupSeen] at hv
    split at hv
    · exact ih seen v hv
    · rcases List.mem_cons.mp hv with rfl | hv2
      · assumption
      · intro hmem
        exact ih _ v hv2 (List.mem_cons_of_mem _ hmem)

theorem dedupSeen_pairwise (seen : List String) (l : List SitemapUrl) :
    (dedupSeen seen l).Pairwise fun a b => normalizeUrl a.loc ≠ normalizeUrl b.loc := by
  induction l generalizing seen with
  | nil => simp [dedupSeen]
  | cons w rest ih =>
    rw [dedupSeen]
    split
    · exact ih seen
    · refine List.Pairwise.cons ?_ (ih _)
      intro v hv heq
      exact dedupSeen_key_not_seen _ _ v hv (by rw [← heq]; simp)

/-! ## Lexicographic comparator lemmas -/

theorem chLt_irrefl (l : List Char) : chLt l l = false := by
  induction l with
  | nil => rfl
  | cons a t ih => simp [chLt, ih]

theorem chLt_trans : ∀ {a b c : List Char},
    chLt a b = true → chLt b c = true → chLt a c = true
  | [], [], _, hab, _ => by cases hab
  | [], _ :: _, [], _, hbc => by cases hbc
  | [], _ :: _, _ :: _, _, _ => rfl
  | _ :: _, [], _, hab, _ => by cases hab
  | _ :: _, _ :: _, [], _, hbc => by cases hbc
  | x :: xs, y :: ys, z :: zs, hab, hbc => by
    simp only [chLt] at hab hbc ⊢
    by_cases hxy : x < y
    · by_cases hyz : y < z
      · rw [if_pos (lt_trans hxy hyz)]
      · by_cases hyz2 : y = z
        · subst hyz2
          rw [if_pos hxy]
        · simp [hyz, hyz2] at hbc
    · by_cases hxy2 : x = y
      · subst hxy2
        rw [if_neg hxy, if_pos rfl] at hab
        by_cases hyz : x < z
        · rw [if_pos hyz]
        · by_cases hyz2 : x = z
          · subst hyz2
            rw [if_neg hyz, if_pos rfl] at hbc ⊢
            exact chLt_trans hab hbc
          · simp [hyz, hyz2] at hbc
      · simp [hxy, hxy2] at hab

theorem chLt_trichotomy (a b : List Char) :
    chLt a b = true ∨ a = b ∨ chLt b a = true := by
  induction a generalizing b with
  | nil => cases b <;> simp [chLt]
  | cons x xs ih =>
    cases b with
    | nil => simp [chLt]
    | cons y ys =>
      rcases lt_trichotomy x y with hxy | hxy | hxy
      · left; simp [chLt, hxy]
      · subst hxy
        rcases ih ys with h1 | h1 | h1
        · left; simp [chLt, h1]
        · right; left; rw [h1]
        · right; right; simp [chLt, h1]
      · right; right; simp [chLt, hxy]

theorem chLe_total (a b : List Char) : chLe a b = true ∨ chLe b a = true := by
  rcases chLt_trichotomy a b with h | h | h
  · left; simp [chLe, h]
  · left; simp [chLe, h]
  · right; simp [chLe, h]

theorem chLe_trans {a b c : List Char} (hab : chLe a b = true) (hbc : chLe b c = true) :
    chLe a c = true := by
  simp only [chLe, Bool.or_eq_true, beq_iff_eq] at hab hbc ⊢
  rcases hab with hab | hab
  · rcases hbc with hbc | hbc
    · exact Or.inl (chLt_trans hab hbc)
    · exact Or.inl (hbc ▸ hab)
  · exact hab ▸ hbc

theorem chLt_of_chLe_of_ne {a b : List Char} (hab : chLe a b = true) (hne : a ≠ b) :
    chLt a b = true := by
  simp only [chLe, Bool.or_eq_true, beq_iff_eq] at hab
  rcases hab with hab | hab
  · exact hab
  · exact absurd hab hne

instance : IsTotal SitemapUrl locLe :=
  ⟨fun a b => chLe_total a.loc.toList b.loc.toList⟩

instance : IsTrans SitemapUrl locLe :=
  ⟨fun _ _ _ hab hbc => chLe_trans hab hbc⟩

theorem sortByLoc_perm (l : List SitemapUrl) : (sortByLoc l).Perm l :=
  List.perm_insertionSort locLe l

theorem sortByLoc_sorted (l : List SitemapUrl) : (sortByLoc l).Sorted locLe :=
  List.sorted_insertionSort locLe l

/-! ## Builder-stage preservation lemmas -/

theorem mem_builderEntries_subset {l : List SitemapUrl} {u : SitemapUrl}
    (h : u ∈ builderEntries l) : u ∈ l := by
  have h2 := (sortByLoc_perm (removeDuplicates l)).mem_iff.mp h
  exact (dedupSeen_sublist [] l).subset h2

theorem builder_preserves_key {l : List SitemapUrl} {u : SitemapUrl} (hu : u ∈ l) :
    ∃ v ∈ builderEntries l, normalizeUrl v.loc = normalizeUrl u.loc := by
  obtain ⟨v, hv, hkey⟩ := mem_dedupSeen_key [] l u hu (by simp)
  exact ⟨v, (sortByLoc_perm (removeDuplicates l)).mem_iff.mpr hv, hkey⟩

theorem builder_preserves_pathNorm {l : List SitemapUrl} {X : String}
    (h : ∃ e ∈ l, pathNormOf e = some X) :
    ∃ e ∈ builderEntries l, pathNormOf e = some X := by
  obtain ⟨e, he, hX⟩ := h
  obtain ⟨ua, ha, -⟩ := Option.map_eq_some'.mp hX
  obtain ⟨v, hv, hkey⟩ := builder_preserves_key he
  refine ⟨v, hv, ?_⟩
  have := pathNorm_eq_of_key_eq ha hkey.symm
  rw [this, hX]

/-! ## Validation and completion-stage lemmas -/

/-- An entry whose location the URL model parses. -/
def entryParses (e : SitemapUrl) : Prop :=
  (parseURL e.loc).isSome = true

instance : DecidablePred entryParses := fun e => by unfold entryParses; infer_instance

theorem classify_parses {u : SitemapUrl} (h : classifyWww u = true) : entryParses u := by
  unfold classifyWww at h
  unfold entryParses
  cases hp : parseURL u.loc with
  | none => rw [hp] at h; cases h
  | some p => simp

theorem valid_parses {urls : List SitemapUrl} {u : SitemapUrl}
    (h : u ∈ (validateUrlsAreWwwOnly urls).1) : entryParses u :=
  classify_parses (List.mem_filter.mp h).2

theorem findIdx?_lt_aux {p : SitemapUrl → Bool} : ∀ {l : List SitemapUrl} {s i : Nat},
    List.findIdx? p l s = some i → i < s + l.length ∧ s ≤ i := by
  intro l
  induction l with
  | nil => intro s i h; simp [List.findIdx?] at h
  | cons a t ih =>
    intro s i h
    rw [List.findIdx?_cons] at h
    by_cases ha : p a = true
    · rw [if_pos ha] at h
      injection h with h
      subst h
      constructor
      · simp
      · exact Nat.le_refl s
    · rw [if_neg ha] at h
      have := ih h
      rw [List.length_cons]
      omega

theorem findIdx?_lt {p : SitemapUrl → Bool} {l : List SitemapUrl} {i : Nat}
    (h : l.findIdx? p = some i) : i < l.length := by
  have := findIdx?_lt_aux h
  omega

theorem mem_ensureMainPath {l : List SitemapUrl} {p : String} {a : SitemapUrl}
    (h : a ∈ l) : a ∈ ensureMainPath l p := by
  unfold ensureMainPath
  split
  · exact h
  · exact List.mem_cons_of_mem _ h

theorem mem_ensureMainPath_inv {l : List SitemapUrl} {p : String} {a : SitemapUrl}
    (h : a ∈ ensureMainPath l p) : a ∈ l ∨ a = { loc := BASE_URL ++ p } := by
  unfold ensureMainPath at h
  split at h
  · exact Or.inl h
  · rcases List.mem_cons.mp h with rfl | h2
    · exact Or.inr rfl
    · exact Or.inl h2

theorem mem_foldl_ensureMain {ps : List String} {l : List SitemapUrl} {a : SitemapUrl}
    (h : a ∈ l) : a ∈ ps.foldl ensureMainPath l := by
  induction ps generalizing l with
  | nil => exact h
  | cons q qs ih => exact ih (mem_ensureMainPath h)

theorem mem_foldl_ensureMain_inv {ps : List String} {l : List SitemapUrl} {a : SitemapUrl}
    (h : a ∈ ps.foldl ensureMainPath l) :
    a ∈ l ∨ ∃ p ∈ ps, a = { loc := BASE_URL ++ p } := by
  induction ps generalizing l with
  | nil => exact Or.inl h
  | cons q qs ih =>
    rcases ih h with h2 | ⟨p, hp, rfl⟩
    · rcases mem_ensureMainPath_inv h2 with h3 | h3
      · exact Or.inl h3
      · exact Or.inr ⟨q, by simp, h3⟩
    · exact Or.inr ⟨p, List.mem_cons_of_mem _ hp, rfl⟩

theorem mem_ensureCityPath {l : List SitemapUrl} {p : String} {a : SitemapUrl}
    (h : a ∈ l) : a ∈ ensureCityPath l p := by
  unfold ensureCityPath
  split
  · exact h
  · cases hidx : l.findIdx? (mainAnchor p) with
    | some i =>
      simp only [hidx]
      exact (List.mem_insertIdx (by have := findIdx?_lt hidx; omega)).mpr (Or.inr h)
    | none =>
      simp only [hidx]
      exact List.mem_append_left _ h

theorem mem_ensureCityPath_inv {l : List SitemapUrl} {p : String} {a : SitemapUrl}
    (h : a ∈ ensureCityPath l p) :
    a ∈ l ∨ a = { loc := BASE_URL ++ "/city-by-urban" ++ p } := by
  unfold ensureCityPath at h
  split at h
  · exact Or.inl h
  · cases hidx : l.findIdx? (mainAnchor p) with
    | some i =>
      rw [hidx] at h
      rcases (List.mem_insertIdx (by have := findIdx?_lt hidx; omega)).mp h with h2 | h2
      · exact Or.inr h2
      · exact Or.inl h2
    | none =>
      rw [hidx] at h
      rcases List.mem_append.mp h with h2 | h2
      · exact Or.inl h2
      · exact Or.inr (by simpa using h2)

theorem mem_foldl_ensureCity {ps : List String} {l : List SitemapUrl} {a : SitemapUrl}
    (h : a ∈ l) : a ∈ ps.foldl ensureCityPath l := by
  induction ps generalizing l with
  | nil => exact h
  | cons q qs ih => exact ih (mem_ensureCityPath h)

theorem mem_foldl_ensureCity_inv {ps : List String} {l : List SitemapUrl} {a : SitemapUrl}
    (h : a ∈ ps.foldl ensureCityPath l) :
    a ∈ l ∨ ∃ p ∈ ps, a = { loc := BASE_URL ++ "/city-by-urban" ++ p } := by
  induction ps generalizing l with
  | nil => exact Or.inl h
  | cons q qs ih =>
    rcases ih h with h2 | ⟨p, hp, rfl⟩
    · rcases mem_ensureCityPath_inv h2 with h3 | h3
      · exact Or.inl h3
      · exact Or.inr ⟨q, by simp, h3⟩
    · exact Or.inr ⟨p, List.mem_cons_of_mem _ hp, rfl⟩

theorem ensureMainPath_parses {l : List SitemapUrl} {p : String}
    (hl : ∀ e ∈ l, entryParses e)
    (hp : parseURL (BASE_URL ++ p) = some ⟨"https", WWW_DOMAIN, p, "", ""⟩) :
    ∀ e ∈ ensureMainPath l p, entryParses e := by
  intro e he
  rcases mem_ensureMainPath_inv he with h2 | rfl
  · exact hl e h2
  · unfold entryParses
    simp [hp]

theorem ensureMainPath_establishes {l : List SitemapUrl} {p : String}
    (hl : ∀ e ∈ l, entryParses e)
    (hp : parseURL (BASE_URL ++ p) = some ⟨"https", WWW_DOMAIN, p, "", ""⟩) :
    ∃ e ∈ ensureMainPath l p, pathNormOf e = some (normalizePath p) := by
  unfold ensureMainPath
  by_cases hex : mainPathExists p l = true
  · rw [if_pos hex]
    unfold mainPathExists at hex
    obtain ⟨u, hu, hcond⟩ := List.any_eq_true.mp hex
    cases hu2 : parseURL u.loc with
    | none =>
      have := hl u hu
      unfold entryParses at this
      rw [hu2] at this
      cases this
    | some parts =>
      rw [hu2] at hcond
      have h1 : normalizePath parts.path = normalizePath p := by
        simp only [Bool.and_eq_true, beq_iff_eq] at hcond
        exact hcond.1.1
      exact ⟨u, hu, by simp [pathNormOf, hu2, h1]⟩
  · rw [if_neg hex]
    refine ⟨{ loc := BASE_URL ++ p }, by simp, ?_⟩
    simp [pathNormOf, hp]

theorem foldl_ensureMain_establishes {ps : List String} {l : List SitemapUrl}
    (hl : ∀ e ∈ l, entryParses e)
    (hp : ∀ p ∈ ps, parseURL (BASE_URL ++ p) = some ⟨"https", WWW_DOMAIN, p, "", ""⟩) :
    ∀ p ∈ ps, ∃ e ∈ ps.foldl ensureMainPath l, pathNormOf e = some (normalizePath p) := by
  induction ps generalizing l with
  | nil => intro p hps; simp at hps
  | cons q qs ih =>
    intro p hps
    rw [List.foldl_cons]
    rcases List.mem_cons.mp hps with rfl | hps2
    · obtain ⟨e, he, hE⟩ := ensureMainPath_establishes hl (hp p (by simp))
      exact ⟨e, mem_foldl_ensureMain he, hE⟩
    · exact ih (ensureMainPath_parses hl (hp q (by simp)))
        (fun r hr => hp r (List.mem_cons_of_mem _ hr)) p hps2

theorem foldl_ensureMain_parses {ps : List String} {l : List SitemapUrl}
    (hl : ∀ e ∈ l, entryParses e)
    (hp : ∀ p ∈ ps, parseURL (BASE_URL ++ p) = some ⟨"https", WWW_DOMAIN, p, "", ""⟩) :
    ∀ e ∈ ps.foldl ensureMainPath l, entryParses e := by
  intro e he
  rcases mem_foldl_ensureMain_inv he with h2 | ⟨p, hps, rfl⟩
  · exact hl e h2
  · unfold entryParses
    simp [hp p hps]

theorem ensureCityPath_parses {l : List SitemapUrl} {p : String}
    (hl : ∀ e ∈ l, entryParses e)
    (hp : parseURL (BASE_URL ++ "/city-by-urban" ++ p)
      = some ⟨"https", WWW_DOMAIN, "/city-by-urban" ++ p, "", ""⟩) :
    ∀ e ∈ ensureCityPath l p, entryParses e := by
  intro e he
  rcases mem_ensureCityPath_inv he with h2 | rfl
  · exact hl e h2
  · unfold entryParses
    simp [hp]

theorem ensureCityPath_establishes {l : List SitemapUrl} {p : String}
    (hl : ∀ e ∈ l, entryParses e)
    (hp : parseURL (BASE_URL ++ "/city-by-urban" ++ p)
      = some ⟨"https", WWW_DOMAIN, "/city-by-urban" ++ p, "", ""⟩) :
    ∃ e ∈ ensureCityPath l p,
      pathNormOf e = some (normalizePath ("/city-by-urban" ++ p)) := by
  unfold ensureCityPath
  by_cases hex : cityPathExists p l = true
  · rw [if_pos hex]
    unfold cityPathExists at hex
    obtain ⟨u, hu, hcond⟩ := List.any_eq_true.mp hex
    cases hu2 : parseURL u.loc with
    | none =>
      have := hl u hu
      unfold entryParses at this
      rw [hu2] at this
      cases this
    | some parts =>
      rw [hu2] at hcond
      have h1 : normalizePath parts.path = normalizePath ("/city-by-urban" ++ p) :=
        beq_iff_eq.mp hcond
      exact ⟨u, hu, by simp [pathNormOf, hu2, h1]⟩
  · rw [if_neg hex]
    cases hidx : l.findIdx? (mainAnchor p) with
    | some i =>
      refine ⟨{ loc := BASE_URL ++ "/city-by-urban" ++ p },
        (List.mem_insertIdx (by have := findIdx?_lt hidx; omega)).mpr (Or.inl rfl), ?_⟩
      simp [pathNormOf, hp]
    | none =>
      refine ⟨{ loc := BASE_URL ++ "/city-by-urban" ++ p }, by simp, ?_⟩
      simp [pathNormOf, hp]

theorem foldl_ensureCity_establishes {ps : List String} {l : List SitemapUrl}
    (hl : ∀ e ∈ l, entryParses e)
    (hp : ∀ p ∈ ps, parseURL (BASE_URL ++ "/city-by-urban" ++ p)
      = some ⟨"https", WWW_DOMAIN, "/city-by-urban" ++ p, "", ""⟩) :
    ∀ p ∈ ps, ∃ e ∈ ps.foldl ensureCityPath l,
      pathNormOf e = some (normalizePath ("/city-by-urban" ++ p)) := by
  induction ps generalizing l with
  | nil => intro p hps; simp at hps
  | cons q qs ih =>
    intro p hps
    rw [List.foldl_cons]
    rcases List.mem_cons.mp hps with rfl | hps2
    · obtain ⟨e, he, hE⟩ := ensureCityPath_establishes hl (hp p (by simp))
      exact ⟨e, mem_foldl_ensureCity he, hE⟩
    · exact ih (ensureCityPath_parses hl (hp q (by simp)))
        (fun r hr => hp r (List.mem_cons_of_mem _ hr)) p hps2

theorem completedUrls_has_main (allUrls : List SitemapUrl) :
    ∀ p ∈ PROTECTED_PATHS,
      ∃ e ∈ completedUrls allUrls, pathNormOf e = some (normalizePath p) := by
  intro p hp
  have hvalid : ∀ e ∈ (validateUrlsAreWwwOnly (removeDuplicateMainSiteUrls allUrls)).1,
      entryParses e := fun e he => valid_parses he
  have hparse : ∀ q ∈ PROTECTED_PATHS,
      parseURL (BASE_URL ++ q) = some ⟨"https", WWW_DOMAIN, q, "", ""⟩ := by decide
  obtain ⟨e, he, hE⟩ := foldl_ensureMain_establishes hvalid hparse p hp
  exact ⟨e, mem_foldl_ensureCity he, hE⟩

theorem completedUrls_has_city (allUrls : List SitemapUrl) :
    ∀ p ∈ PROTECTED_PATHS, p ≠ "/city-by-urban" →
      ∃ e ∈ completedUrls allUrls,
        pathNormOf e = some (normalizePath ("/city-by-urban" ++ p)) := by
  intro p hp hne
  have hvalid : ∀ e ∈ (validateUrlsAreWwwOnly (removeDuplicateMainSiteUrls allUrls)).1,
      entryParses e := fun e he => valid_parses he
  have hmainparse : ∀ q ∈ PROTECTED_PATHS,
      parseURL (BASE_URL ++ q) = some ⟨"https", WWW_DOMAIN, q, "", ""⟩ := by decide
  have hl2 : ∀ e ∈ ensureMainPaths (validateUrlsAreWwwOnly (removeDuplicateMainSiteUrls allUrls)).1,
      entryParses e := foldl_ensureMain_parses hvalid hmainparse
  have hcityparse : ∀ q ∈ PROTECTED_PATHS.filter (fun r => r ≠ "/city-by-urban"),
      parseURL (BASE_URL ++ "/city-by-urban" ++ q)
        = some ⟨"https", WWW_DOMAIN, "/city-by-urban" ++ q, "", ""⟩ := by decide
  exact foldl_ensureCity_establishes hl2 hcityparse p
    (List.mem_filter.mpr ⟨hp, by simp [hne]⟩)

theorem completedUrls_ne_nil (allUrls : List SitemapUrl) : completedUrls allUrls ≠ [] := by
  obtain ⟨e, he, -⟩ := completedUrls_has_main allUrls "/" (by decide)
  intro hnil
  rw [hnil] at he
  simp at he

theorem builderEntries_ne_nil {l : List SitemapUrl} (h : l ≠ []) : builderEntries l ≠ [] := by
  have hlen : (builderEntries l).length = (removeDuplicates l).length :=
    (sortByLoc_perm (removeDuplicates l)).length_eq
  cases l with
  | nil => exact absurd rfl h
  | cons u rest =>
    have : removeDuplicates (u :: rest) = u :: dedupSeen [normalizeUrl u.loc] rest := by
      unfold removeDuplicates
      rw [dedupSeen, if_neg (by simp)]
    intro hnil
    rw [hnil] at hlen
    rw [this] at hlen
    simp at hlen

theorem finalEntries_ne_nil (allUrls : List SitemapUrl) : finalEntries allUrls ≠ [] :=
  builderEntries_ne_nil (completedUrls_ne_nil allUrls)

/-! ## Claim C2 -/

/-- Claim C2: for every protected path `p`, the final merged entry list
contains an entry whose normalized pathname equals `p` in its canonical
form, and, when `p` is not the prefix-root path `/city-by-urban`, also an
entry whose normalized pathname equals the prefixed form
`/city-by-urban` ++ `p` — for every input entry list, including inputs
where neither form was present. -/
theorem c2_protected_path_completion (allUrls : List SitemapUrl) (p : String)
    (hp : p ∈ PROTECTED_PATHS) :
    (∃ e ∈ finalEntries allUrls, pathNormOf e = some (normalizePath p)) ∧
    (p ≠ "/city-by-urban" →
      ∃ e ∈ finalEntries allUrls,
        pathNormOf e = some (normalizePath ("/city-by-urban" ++ p))) := by
  constructor
  · exact builder_preserves_pathNorm (completedUrls_has_main allUrls p hp)
  · intro hne
    exact builder_preserves_pathNorm (completedUrls_has_city allUrls p hp hne)

/-- Witness for C2 at the empty input and the protected path `/venues`:
both forms are synthesized from nothing. -/
theorem c2_protected_path_completion_witness :
    (∃ e ∈ finalEntries [], pathNormOf e = some (normalizePath "/venues")) ∧
    (∃ e ∈ finalEntries [],
      pathNormOf e = some (normalizePath ("/city-by-urban" ++ "/venues"))) :=
  ⟨(c2_protected_path_completion [] "/venues" (by decide)).1,
   (c2_protected_path_completion [] "/venues" (by decide)).2 (by decide)⟩

/-! ## Claims C5 and C6 -/

/-- Counterexample to C5 as stated: one source fails and the other two
succeed — but with zero entries — and the merge raises the fatal
all-sources-failed error instead of completing. -/
theorem c5_single_failure_counterexample :
    generateFromResults (.error "HTTP 500") (.ok []) (.ok [])
      = .error "All sitemap sources failed: Main: HTTP 500" := by
  rfl

/-- Claim C5 (amended): if exactly one of the three source fetches fails
and the other two succeed *with at least one entry between them*, the
merge completes without a fatal error, producing the document built from
the two successful sources' concatenated entries (the failed source
contributes zero entries), and the output entry list is non-empty. -/
theorem c5_single_failure (e : String) (la lb : List SitemapUrl) (h : la ++ lb ≠ []) :
    generateFromResults (.error e) (.ok la) (.ok lb)
        = .ok (buildSitemapXml (completedUrls (la ++ lb))) ∧
    generateFromResults (.ok la) (.error e) (.ok lb)
        = .ok (buildSitemapXml (completedUrls (la ++ lb))) ∧
    generateFromResults (.ok la) (.ok lb) (.error e)
        = .ok (buildSitemapXml (completedUrls (la ++ lb))) ∧
    finalEntries (la ++ lb) ≠ [] := by
  refine ⟨?_, ?_, ?_, finalEntries_ne_nil _⟩
  · simp only [generateFromResults, settledUrls, List.nil_append, List.append_nil]
    rw [if_neg h, if_neg (completedUrls_ne_nil _)]
  · simp only [generateFromResults, settledUrls, List.nil_append, List.append_nil]
    rw [if_neg h, if_neg (completedUrls_ne_nil _)]
  · simp only [generateFromResults, settledUrls, List.nil_append, List.append_nil]
    rw [if_neg h, if_neg (completedUrls_ne_nil _)]

/-- Witness for the amended C5 at a concrete one-entry success. -/
theorem c5_single_failure_witness :
    generateFromResults (.error "HTTP 500")
        (.ok [{ loc := "https://www.urbanpubsandbars.com/x" }]) (.ok [])
        = .ok (buildSitemapXml (completedUrls
            ([{ loc := "https://www.urbanpubsandbars.com/x" }] ++ []))) ∧
    generateFromResults (.ok [{ loc := "https://www.urbanpubsandbars.com/x" }])
        (.error "HTTP 500") (.ok [])
        = .ok (buildSitemapXml (completedUrls
            ([{ loc := "https://www.urbanpubsandbars.com/x" }] ++ []))) ∧
    generateFromResults (.ok [{ loc := "https://www.urbanpubsandbars.com/x" }])
        (.ok []) (.error "HTTP 500")
        = .ok (buildSitemapXml (completedUrls
            ([{ loc := "https://www.urbanpubsandbars.com/x" }] ++ []))) ∧
    finalEntries ([{ loc := "https://www.urbanpubsandbars.com/x" }] ++ []) ≠ [] :=
  c5_single_failure "HTTP 500" [{ loc := "https://www.urbanpubsandbars.com/x" }] []
    (by decide)

/-- Counterexample to C6 as stated: an input whose only entry fails domain
validation (a `city` subdomain URL) leaves zero valid entries after
partitioning, yet the merge succeeds and produces a document instead of
raising the no-valid-entries error: completion re-inserts the protected
paths before the check runs. -/
theorem c6_no_valid_counterexample :
    (validateUrlsAreWwwOnly (removeDuplicateMainSiteUrls
        [{ loc := "https://city.urbanpubsandbars.com/x" }])).1 = [] ∧
    generateFromResults (.ok [{ loc := "https://city.urbanpubsandbars.com/x" }])
        (.ok []) (.ok [])
      = .ok (buildSitemapXml (completedUrls
          [{ loc := "https://city.urbanpubsandbars.com/x" }])) := by
  constructor
  · decide
  · rfl

/-- Claim C6 (amended): the no-valid-entries check runs only after
protected-path completion, which always leaves at least one entry, so the
merge never raises the no-valid-entries error; whenever at least one entry
was fetched — even if every entry fails domain validation — the merge
succeeds and emits a document. -/
theorem c6_no_valid_entries_unreachable (r1 r2 r3 : Except String (List SitemapUrl)) :
    generateFromResults r1 r2 r3 ≠ .error "No valid URLs remaining after validation" ∧
    (settledUrls r1 ++ settledUrls r2 ++ settledUrls r3 ≠ [] →
      ∃ xml, generateFromResults r1 r2 r3 = .ok xml) := by
  constructor
  · simp only [generateFromResults]
    split
    · intro heq
      injection heq with heq
      have h2 : (("All sitemap sources failed: "
          ++ String.intercalate "; " (failedSummary "Main: " r1 ++ failedSummary "City: " r2
            ++ failedSummary "Careers: " r3)).toList).head? = some 'N' := by
        rw [heq]
        rfl
      have h3 : (("All sitemap sources failed: "
          ++ String.intercalate "; " (failedSummary "Main: " r1 ++ failedSummary "City: " r2
            ++ failedSummary "Careers: " r3)).toList).head? = some 'A' := by
        rw [strToList_append]
        rfl
      rw [h3] at h2
      simp at h2
    · rw [if_neg (completedUrls_ne_nil _)]
      intro heq
      cases heq
  · intro hne
    simp only [generateFromResults]
    rw [if_neg hne, if_neg (completedUrls_ne_nil _)]
    exact ⟨_, rfl⟩

/-- Witness for the amended C6 at a concrete all-invalid input. -/
theorem c6_no_valid_entries_unreachable_witness :
    generateFromResults (.ok [{ loc := "https://city.urbanpubsandbars.com/x" }])
        (.ok []) (.ok [])
      ≠ .error "No valid URLs remaining after validation" ∧
    ∃ xml, generateFromResults (.ok [{ loc := "https://city.urbanpubsandbars.com/x" }])
        (.ok []) (.ok []) = .ok xml :=
  ⟨(c6_no_valid_entries_unreachable _ _ _).1,
   (c6_no_valid_entries_unreachable _ _ _).2 (by decide)⟩

/-! ## Claim C9 -/

theorem normalizeUrl_fixed {y : String} {v : URLParts} (hy : parseURL y = some v)
    (hv : v.path = "/" ∨ v.path = "" ∨ chEndsWith v.path "/" = false) :
    normalizeUrl y = y := by
  simp only [normalizeUrl, hy]
  rcases hv with h1 | h1 | h1
  · rw [if_pos (Or.inl h1)]
  · rw [if_pos (Or.inr h1)]
  · by_cases hroot : v.path = "/" ∨ v.path = ""
    · rw [if_pos hroot]
    · rw [if_neg hroot, if_neg (by rw [h1]; exact Bool.false_ne_true)]

theorem normalizePath_no_slash {p : String} (hp : p.toList ≠ [])
    (hph : p.toList.head? = some '/') (hnd : chEndsWith p "//" = false) :
    normalizePath p = "/" ∨ chEndsWith (normalizePath p) "/" = false := by
  by_cases hroot : p = "/" ∨ p = ""
  · left
    simp only [normalizePath]
    rw [if_pos hroot]
  · right
    simp only [normalizePath]
    rw [if_neg hroot]
    by_cases hsl : chEndsWith p "/" = true
    · rw [if_pos hsl]
      have hsuf : ['/'] <:+ p.toList := by
        simpa using List.isSuffixOf_iff_suffix.mp hsl
      obtain ⟨t, ht⟩ := hsuf
      have htl : (chDropLast p).toList = t := by
        show p.toList.dropLast = t
        rw [← ht]
        exact List.dropLast_concat
      by_contra hc
      rw [Bool.not_eq_false] at hc
      have hsuf2 : ['/'] <:+ t := by
        rw [← htl]
        simpa using List.isSuffixOf_iff_suffix.mp hc
      obtain ⟨t2, ht2⟩ := hsuf2
      have hdd : ("//" : String).toList <:+ p.toList := by
        refine ⟨t2, ?_⟩
        rw [← ht, ← ht2]
        rw [show ("//" : String).toList = ['/'] ++ ['/'] from rfl]
        rw [← List.append_assoc]
      have : chEndsWith p "//" = true := by
        unfold chEndsWith
        exact List.isSuffixOf_iff_suffix.mpr hdd
      rw [this] at hnd
      cases hnd
    · rw [if_neg hsl]
      simpa using hsl

/-- Counterexample to C9 as stated: a pathname ending in a double slash
loses only one slash per application, so `normalizeUrl` is not idempotent
on every input. -/
theorem c9_normalize_idempotent_counterexample :
    normalizeUrl (normalizeUrl "https://www.urbanpubsandbars.com/a//")
      ≠ normalizeUrl "https://www.urbanpubsandbars.com/a//" := by
  decide

/-- Claim C9 (amended): `normalizeUrl` is idempotent on every unparseable
input and on every parseable input whose pathname does not end in a double
slash; every root URL (pathname `/` or empty) is a fixed point. -/
theorem c9_normalize_idempotent (x : String) :
    (∀ u, parseURL x = some u → chEndsWith u.path "//" = false →
      normalizeUrl (normalizeUrl x) = normalizeUrl x) ∧
    (parseURL x = none → normalizeUrl (normalizeUrl x) = normalizeUrl x) ∧
    (∀ u, parseURL x = some u → u.path = "/" ∨ u.path = "" → normalizeUrl x = x) := by
  refine ⟨?_, ?_, ?_⟩
  · intro u h hnd
    obtain ⟨-, -, -, hp, hph, -, -, -, -⟩ := parseURL_wf h
    have hN := parseURL_normalizeUrl h
    apply normalizeUrl_fixed hN
    rcases normalizePath_no_slash hp hph hnd with h1 | h1
    · exact Or.inl h1
    · exact Or.inr (Or.inr h1)
  · intro h
    have hid : normalizeUrl x = x := by simp [normalizeUrl, h]
    rw [hid, hid]
  · intro u h hroot
    simp only [normalizeUrl, h]
    rw [if_pos hroot]

/-- Witness for the amended C9: a single-trailing-slash URL is idempotent
under normalization, and the root URL is a fixed point. -/
theorem c9_normalize_idempotent_witness :
    normalizeUrl (normalizeUrl "https://www.urbanpubsandbars.com/a/")
      = normalizeUrl "https://www.urbanpubsandbars.com/a/" ∧
    normalizeUrl "https://www.urbanpubsandbars.com/" = "https://www.urbanpubsandbars.com/" :=
  ⟨(c9_normalize_idempotent "https://www.urbanpubsandbars.com/a/").1
      ⟨"https", "www.urbanpubsandbars.com", "/a/", "", ""⟩ (by decide) (by decide),
   (c9_normalize_idempotent "https://www.urbanpubsandbars.com/").2.2
      ⟨"https", "www.urbanpubsandbars.com", "/", "", ""⟩ (by decide) (Or.inl rfl)⟩

/-! ## Claim C3 -/

theorem wf_prefixed (u : URLParts) (hu : wfURL u) (pre : String)
    (hpre1 : pre.toList.head? = some '/')
    (hpre2 : ∀ c ∈ pre.toList, pathStop c = false) :
    wfURL ⟨"https", WWW_DOMAIN, pre ++ u.path, u.search, u.hash⟩ := by
  obtain ⟨-, -, -, hp, hph, hpc, hs, hsc, hha⟩ := hu
  have hprene : pre.toList ≠ [] := by
    intro hnil
    rw [hnil] at hpre1
    simp at hpre1
  refine ⟨Or.inl rfl, by show WWW_DOMAIN.toList ≠ []; decide,
    by show ∀ c ∈ WWW_DOMAIN.toList, validHostChar c = true; decide, ?_, ?_, ?_, hs, hsc, hha⟩
  · show (pre ++ u.path).toList ≠ []
    rw [strToList_append]
    intro hnil
    rw [List.append_eq_nil] at hnil
    exact hprene hnil.1
  · show (pre ++ u.path).toList.head? = some '/'
    rw [strToList_append, List.head?_append_of_ne_nil _ hprene]
    exact hpre1
  · intro c hc
    rw [show ((⟨"https", WWW_DOMAIN, pre ++ u.path, u.search, u.hash⟩ : URLParts)).path
      = pre ++ u.path from rfl, strToList_append] at hc
    rcases List.mem_append.mp hc with h2 | h2
    · exact hpre2 c h2
    · exact hpc c h2

theorem validateTransformation_ok (v : URLParts) (hv : wfURL v)
    (hhost : v.host = WWW_DOMAIN) (orig : String) :
    validateTransformation (urlToString v) orig = .ok (urlToString v) := by
  simp only [validateTransformation, parseURL_urlToString v hv]
  rw [if_neg (fun hne => hne hhost)]
  rw [if_neg (by rw [hhost]; decide)]

/-- Counterexample to C3 as stated: the configuration string parses to the
city mapping, but `transformUrl` rewrites the city root URL to
`/city-by-urban/` *with* a trailing slash, not to `/city-by-urban`. -/
theorem c3_transform_counterexample :
    parseMappings "city-by-urban:city.urbanpubsandbars.com"
      = [{ pathPref := "city-by-urban", subdomain := "city.urbanpubsandbars.com" }] ∧
    transformUrl "https://city.urbanpubsandbars.com/" "city"
      = .ok "https://www.urbanpubsandbars.com/city-by-urban/" ∧
    "https://www.urbanpubsandbars.com/city-by-urban/"
      ≠ "https://www.urbanpubsandbars.com/city-by-urban" :=
  ⟨by decide, by rfl, by decide⟩

/-- Claim C3 (amended): `transformUrl` ignores the parsed mapping
configuration and hardcodes the prefixes: a URL on the city subdomain is
rewritten to `https://{canonicalDomain}/city-by-urban{originalPath}` and a
URL on the careers subdomain to
`https://{canonicalDomain}/work-with-us{originalPath}`, both preserving
query and fragment; only the careers branch special-cases a root path
(`/` or empty) to `/work-with-us` with no trailing slash — the city root
becomes `/city-by-urban/` with the trailing slash kept. -/
theorem c3_transform_hardcoded (url : String) (u : URLParts) (h : parseURL url = some u) :
    (u.host = CITY_SUBDOMAIN →
      transformUrl url (getSourceDomain url)
        = .ok ("https://www.urbanpubsandbars.com/city-by-urban"
            ++ u.path ++ u.search ++ u.hash)) ∧
    (u.host = CAREERS_SUBDOMAIN → (u.path = "/" ∨ u.path = "") →
      transformUrl url (getSourceDomain url)
        = .ok ("https://www.urbanpubsandbars.com/work-with-us" ++ u.search ++ u.hash)) ∧
    (u.host = CAREERS_SUBDOMAIN → ¬(u.path = "/" ∨ u.path = "") →
      transformUrl url (getSourceDomain url)
        = .ok ("https://www.urbanpubsandbars.com/work-with-us"
            ++ u.path ++ u.search ++ u.hash)) := by
  have hwf := parseURL_wf h
  refine ⟨?_, ?_, ?_⟩
  · intro hc
    have hsd : getSourceDomain url = "city" := by
      simp only [getSourceDomain, h]
      rw [hc]
      decide
    simp only [transformUrl, h, hsd]
    rw [hc]
    rw [if_neg (by decide), if_neg (by decide), if_neg (by decide), if_pos rfl]
    have hv := wf_prefixed u hwf ("/" ++ "city-by-urban") (by decide) (by decide)
    rw [show transformPrefixed u WWW_DOMAIN "city-by-urban"
      = urlToString ⟨"https", WWW_DOMAIN, ("/" ++ "city-by-urban") ++ u.path,
          u.search, u.hash⟩ from rfl]
    rw [validateTransformation_ok _ hv rfl url]
    rfl
  · intro hc hroot
    have hsd : getSourceDomain url = "careers" := by
      simp only [getSourceDomain, h]
      rw [hc]
      decide
    simp only [transformUrl, h, hsd]
    rw [hc]
    rw [if_neg (by decide), if_neg (by decide), if_neg (by decide), if_neg (by decide),
      if_pos rfl, if_pos hroot]
    have hv : wfURL ⟨"https", WWW_DOMAIN, "/work-with-us", u.search, u.hash⟩ := by
      obtain ⟨-, -, -, -, -, -, hs, hsc, hha⟩ := hwf
      exact ⟨Or.inl rfl, by show WWW_DOMAIN.toList ≠ []; decide,
        by show ∀ c ∈ WWW_DOMAIN.toList, validHostChar c = true; decide,
        by show ("/work-with-us" : String).toList ≠ []; decide,
        by show ("/work-with-us" : String).toList.head? = some '/'; decide,
        by show ∀ c ∈ ("/work-with-us" : String).toList, pathStop c = false; decide,
        hs, hsc, hha⟩
    rw [validateTransformation_ok _ hv rfl url]
    rfl
  · intro hc hroot
    have hsd : getSourceDomain url = "careers" := by
      simp only [getSourceDomain, h]
      rw [hc]
      decide
    simp only [transformUrl, h, hsd]
    rw [hc]
    rw [if_neg (by decide), if_neg (by decide), if_neg (by decide), if_neg (by decide),
      if_pos rfl, if_neg hroot]
    have hv := wf_prefixed u hwf ("/" ++ "work-with-us") (by decide) (by decide)
    rw [show transformPrefixed u WWW_DOMAIN "work-with-us"
      = urlToString ⟨"https", WWW_DOMAIN, ("/" ++ "work-with-us") ++ u.path,
          u.search, u.hash⟩ from rfl]
    rw [validateTransformation_ok _ hv rfl url]
    rfl

/-- Witness for the amended C3 at concrete city and careers URLs. -/
theorem c3_transform_hardcoded_witness :
    transformUrl "https://city.urbanpubsandbars.com/venues?a=1#b"
        (getSourceDomain "https://city.urbanpubsandbars.com/venues?a=1#b")
      = .ok ("https://www.urbanpubsandbars.com/city-by-urban"
          ++ "/venues" ++ "?a=1" ++ "#b") ∧
    transformUrl "https://careers.urbanpubsandbars.com/"
        (getSourceDomain "https://careers.urbanpubsandbars.com/")
      = .ok ("https://www.urbanpubsandbars.com/work-with-us" ++ "" ++ "") :=
  ⟨(c3_transform_hardcoded "https://city.urbanpubsandbars.com/venues?a=1#b"
      ⟨"https", "city.urbanpubsandbars.com", "/venues", "?a=1", "#b"⟩ (by decide)).1 rfl,
   (c3_transform_hardcoded "https://careers.urbanpubsandbars.com/"
      ⟨"https", "careers.urbanpubsandbars.com", "/", "", ""⟩ (by decide)).2.1 rfl
      (Or.inl rfl)⟩

/-! ## Claim C4 -/

theorem mem_cityPathsOf {urls : List SitemapUrl} {x : String} :
    x ∈ cityPathsOf urls ↔
      ∃ v ∈ urls, ∃ q, parseURL v.loc = some q
        ∧ chStartsWith q.path "/city-by-urban/" = true
        ∧ isProtectedPath (chDrop q.path 14) = false
        ∧ chDrop q.path 14 = x := by
  unfold cityPathsOf
  rw [List.mem_filterMap]
  constructor
  · rintro ⟨v, hv, hc⟩
    cases hq : parseURL v.loc with
    | none =>
      simp only [cityPathCandidate, hq] at hc
      cases hc
    | some q =>
      simp only [cityPathCandidate, hq] at hc
      by_cases h1 : chStartsWith q.path "/city-by-urban/" = true
      · rw [if_pos h1] at hc
        by_cases h2 : isProtectedPath (chDrop q.path 14) = true
        · rw [if_pos h2] at hc
          cases hc
        · rw [if_neg h2] at hc
          injection hc with hc
          exact ⟨v, hv, q, hq, h1, by simpa using h2, hc⟩
      · rw [if_neg h1] at hc
        cases hc
  · rintro ⟨v, hv, q, hq, h1, h2, h3⟩
    refine ⟨v, hv, ?_⟩
    simp only [cityPathCandidate, hq]
    rw [if_pos h1, if_neg (by simp [h2]), h3]

theorem dedupKeep_iff {urls : List SitemapUrl} {u : SitemapUrl} :
    dedupKeep (cityPathsOf urls) u = true ↔
      ¬∃ parts, parseURL u.loc = some parts
        ∧ chStartsWith parts.path "/city-by-urban/" = false
        ∧ isRootUrl u.loc parts.path = false
        ∧ isProtectedPath parts.path = false
        ∧ matchesProtectedPattern parts.path = false
        ∧ ∃ v ∈ urls, ∃ q, parseURL v.loc = some q
            ∧ chStartsWith q.path "/city-by-urban/" = true
            ∧ isProtectedPath (chDrop q.path 14) = false
            ∧ chDrop q.path 14 = parts.path := by
  cases hp : parseURL u.loc with
  | none =>
    simp only [dedupKeep, hp]
    constructor
    · intro _
      rintro ⟨parts, hparts, -⟩
      cases hparts
    · intro _
      trivial
  | some parts =>
    simp only [dedupKeep, hp]
    have hinj : ∀ parts2, (some parts : Option URLParts) = some parts2 → parts2 = parts := by
      intro parts2 h2
      injection h2 with h2
      exact h2.symm
    by_cases h1 : chStartsWith parts.path "/city-by-urban/" = true
    · rw [if_pos h1]
      simp only [true_iff]
      rintro ⟨parts2, hparts2, hb, -⟩
      rw [hinj parts2 hparts2] at hb
      rw [h1] at hb
      cases hb
    · rw [if_neg h1]
      by_cases h2 : isRootUrl u.loc parts.path = true
      · rw [if_pos h2]
        simp only [true_iff]
        rintro ⟨parts2, hparts2, -, hb, -⟩
        rw [hinj parts2 hparts2] at hb
        rw [h2] at hb
        cases hb
      · rw [if_neg h2]
        by_cases h3 : isProtectedPath parts.path = true
        · rw [if_pos h3]
          simp only [true_iff]
          rintro ⟨parts2, hparts2, -, -, hb, -⟩
          rw [hinj parts2 hparts2] at hb
          rw [h3] at hb
          cases hb
        · rw [if_neg h3]
          by_cases h4 : matchesProtectedPattern parts.path = true
          · rw [if_pos h4]
            simp only [true_iff]
            rintro ⟨parts2, hparts2, -, -, -, hb, -⟩
            rw [hinj parts2 hparts2] at hb
            rw [h4] at hb
            cases hb
          · rw [if_neg h4]
            by_cases h5 : (cityPathsOf urls).contains parts.path = true
            · rw [if_pos h5]
              simp only [Bool.false_eq_true, false_iff, not_not]
              refine ⟨parts, rfl, by simpa using h1, by simpa using h2, by simpa using h3,
                by simpa using h4, ?_⟩
              exact mem_cityPathsOf.mp (by simpa using h5)
            · rw [if_neg h5]
              simp only [true_iff]
              rintro ⟨parts2, hparts2, -, -, -, -, hset⟩
              rw [hinj parts2 hparts2] at hset
              have : parts.path ∈ cityPathsOf urls := mem_cityPathsOf.mpr hset
              exact h5 (by simpa using this)

/-- Claim C4: the deduplication stage keeps every entry unchanged except
those on the canonical un-prefixed path space that are not the root, not
an exact protected path, do not match a protected pattern, and whose
pathname is in the set of prefix-stripped paths of `/city-by-urban/`
entries (that set excluding stripped paths that equal a protected path
exactly); removal happens exactly under those conditions. -/
theorem c4_dedup_characterization (urls : List SitemapUrl) :
    (removeDuplicateMainSiteUrls urls).Sublist urls ∧
    ∀ u ∈ urls,
      (u ∈ removeDuplicateMainSiteUrls urls ↔
        ¬∃ parts, parseURL u.loc = some parts
          ∧ chStartsWith parts.path "/city-by-urban/" = false
          ∧ isRootUrl u.loc parts.path = false
          ∧ isProtectedPath parts.path = false
          ∧ matchesProtectedPattern parts.path = false
          ∧ ∃ v ∈ urls, ∃ q, parseURL v.loc = some q
              ∧ chStartsWith q.path "/city-by-urban/" = true
              ∧ isProtectedPath (chDrop q.path 14) = false
              ∧ chDrop q.path 14 = parts.path) := by
  constructor
  · exact List.filter_sublist _
  · intro u hu
    rw [show removeDuplicateMainSiteUrls urls = urls.filter (dedupKeep (cityPathsOf urls))
      from rfl]
    rw [List.mem_filter]
    constructor
    · intro h
      exact dedupKeep_iff.mp h.2
    · intro h
      exact ⟨hu, dedupKeep_iff.mpr h⟩

/-- Witness for C4: an un-prefixed entry with a city-transformed duplicate
is characterized as removed. -/
theorem c4_dedup_characterization_witness :
    ({ loc := "https://www.urbanpubsandbars.com/x" } : SitemapUrl)
      ∈ removeDuplicateMainSiteUrls
          [{ loc := "https://www.urbanpubsandbars.com/city-by-urban/x" },
           { loc := "https://www.urbanpubsandbars.com/x" }] ↔
    ¬∃ parts, parseURL "https://www.urbanpubsandbars.com/x" = some parts
      ∧ chStartsWith parts.path "/city-by-urban/" = false
      ∧ isRootUrl "https://www.urbanpubsandbars.com/x" parts.path = false
      ∧ isProtectedPath parts.path = false
      ∧ matchesProtectedPattern parts.path = false
      ∧ ∃ v ∈ [({ loc := "https://www.urbanpubsandbars.com/city-by-urban/x" } : SitemapUrl),
               { loc := "https://www.urbanpubsandbars.com/x" }],
          ∃ q, parseURL v.loc = some q
            ∧ chStartsWith q.path "/city-by-urban/" = true
            ∧ isProtectedPath (chDrop q.path 14) = false
            ∧ chDrop q.path 14 = parts.path :=
  (c4_dedup_characterization
      [{ loc := "https://www.urbanpubsandbars.com/city-by-urban/x" },
       { loc := "https://www.urbanpubsandbars.com/x" }]).2
    { loc := "https://www.urbanpubsandbars.com/x" } (by decide)

/-! ## Claim C7 -/

theorem builderEntries_pairwise_key (l : List SitemapUrl) :
    (builderEntries l).Pairwise fun a b => normalizeUrl a.loc ≠ normalizeUrl b.loc := by
  exact ((sortByLoc_perm (removeDuplicates l)).pairwise_iff
    (fun {a b} hab heq => hab heq.symm)).mpr (dedupSeen_pairwise [] l)

/-- Counterexample to C7 as stated: two entries with the same pathname but
different query strings are both serialized (they have distinct normalized
location strings), so two output entries share one normalized pathname. -/
theorem c7_sorted_unique_counterexample :
    (builderEntries [{ loc := "https://www.urbanpubsandbars.com/a?x=1" },
        { loc := "https://www.urbanpubsandbars.com/a?x=2" }]).map pathNormOf
      = [some "/a", some "/a"] := by
  decide

/-- Claim C7 (amended): the Builder's serialized entries are in strictly
ascending lexicographic order by full location string, and are pairwise
distinct by normalized location string (`normalizeUrl`) — not by
normalized pathname. -/
theorem c7_sorted_unique (urls : List SitemapUrl) :
    (builderEntries urls).Pairwise
      (fun a b => chLt a.loc.toList b.loc.toList = true) ∧
    (builderEntries urls).Pairwise
      (fun a b => normalizeUrl a.loc ≠ normalizeUrl b.loc) := by
  have hkey := builderEntries_pairwise_key urls
  refine ⟨?_, hkey⟩
  have hsorted : (builderEntries urls).Pairwise locLe := sortByLoc_sorted _
  have hboth := hsorted.and hkey
  refine hboth.imp ?_
  rintro a b ⟨hle, hne⟩
  refine chLt_of_chLe_of_ne hle ?_
  intro heq
  have hloc : a.loc = b.loc := String.toList_inj.mp heq
  exact hne (by rw [hloc])

/-! ## Claim C8 -/

theorem chunkList_length (l : List SitemapUrl) :
    (chunkList l).length
      = (l.length + (MAX_URLS_PER_SITEMAP - 1)) / MAX_URLS_PER_SITEMAP := by
  rw [chunkList]
  split
  · rename_i h
    subst h
    decide
  · rename_i h
    rw [List.length_cons, chunkList_length (l.drop MAX_URLS_PER_SITEMAP), List.length_drop]
    have hpos : 0 < l.length := List.length_pos.mpr h
    show (l.length - 50000 + (50000 - 1)) / 50000 + 1 = (l.length + (50000 - 1)) / 50000
    by_cases hle : l.length ≤ 50000
    · rw [Nat.sub_eq_zero_iff_le.mpr hle]
      have h3 : l.length + (50000 - 1) = (l.length - 1) + 50000 := by omega
      have h4 : (l.length - 1) / 50000 = 0 := Nat.div_eq_of_lt (by omega)
      rw [h3, Nat.add_div_right _ (by norm_num), h4]
    · have h2 : l.length + (50000 - 1) = (l.length - 50000 + (50000 - 1)) + 50000 := by
        omega
      rw [h2, Nat.add_div_right _ (by norm_num)]
termination_by l.length
decreasing_by
  simp only [List.length_drop, MAX_URLS_PER_SITEMAP]
  have hne : l ≠ [] := by assumption
  have : 0 < l.length := List.length_pos.mpr hne
  omega

theorem chunkList_le (l : List SitemapUrl) :
    ∀ c ∈ chunkList l, c.length ≤ MAX_URLS_PER_SITEMAP := by
  intro c hc
  rw [chunkList] at hc
  split at hc
  · simp at hc
  · rcases List.mem_cons.mp hc with rfl | hc2
    · rw [List.length_take]
      exact Nat.min_le_left _ _
    · exact chunkList_le (l.drop MAX_URLS_PER_SITEMAP) c hc2
termination_by l.length
decreasing_by
  simp only [List.length_drop, MAX_URLS_PER_SITEMAP]
  have hne : l ≠ [] := by assumption
  have : 0 < l.length := List.length_pos.mpr hne
  omega

/-- Claim C8: the Builder deduplicates and sorts, emits a single urlset at
or below the 50,000-entry limit and a sitemap index above it; the index
references exactly `ceil(count / 50000)` ordered chunks (one
`sitemap-{n}.xml` reference per chunk), each chunk holding at most 50,000
entries; in particular a 60,001-entry list yields exactly 2 chunks. -/
theorem c8_pagination (urls : List SitemapUrl) (u : SitemapUrl) :
    (buildSitemapXml urls
      = if (builderEntries urls).length > MAX_URLS_PER_SITEMAP
        then buildSitemapIndex (builderEntries urls)
        else urlsetXml (builderEntries urls)) ∧
    ((chunkList (builderEntries urls)).length
      = ((builderEntries urls).length + (MAX_URLS_PER_SITEMAP - 1))
          / MAX_URLS_PER_SITEMAP) ∧
    (∀ c ∈ chunkList (builderEntries urls), c.length ≤ MAX_URLS_PER_SITEMAP) ∧
    (chunkList (List.replicate 60001 u)).length = 2 ∧
    List.replicate 60001 u ≠ [] := by
  refine ⟨rfl, chunkList_length _, chunkList_le _, ?_,
    List.length_pos.mp (by rw [List.length_replicate]; norm_num)⟩
  rw [chunkList_length, List.length_replicate]
  decide

/-- Witness for C8 at a one-entry input: its single chunk is within the
limit. -/
theorem c8_pagination_witness :
    (builderEntries [{ loc := "https://www.urbanpubsandbars.com/a" }]).length
      ≤ MAX_URLS_PER_SITEMAP := by
  apply (c8_pagination [{ loc := "https://www.urbanpubsandbars.com/a" }]
    { loc := "https://www.urbanpubsandbars.com/a" }).2.2.1
  rw [chunkList, dif_neg (by decide :
    ¬(builderEntries [{ loc := "https://www.urbanpubsandbars.com/a" }] = []))]
  have htake : List.take MAX_URLS_PER_SITEMAP
      (builderEntries [{ loc := "https://www.urbanpubsandbars.com/a" }])
      = builderEntries [{ loc := "https://www.urbanpubsandbars.com/a" }] := by decide
  rw [htake]
  exact List.mem_cons_self _ _

/-! ## Claims C1 and C10 -/

theorem classify_good {u : SitemapUrl} (h : classifyWww u = true) :
    ∃ parts, parseURL u.loc = some parts ∧ parts.host = WWW_DOMAIN ∧
      (isRootUrl u.loc parts.path = false →
        chContains u.loc CITY_SUBDOMAIN = false ∧
        chContains u.loc CAREERS_SUBDOMAIN = false) := by
  cases hp : parseURL u.loc with
  | none =>
    rw [show classifyWww u = false from by simp [classifyWww, hp]] at h
    cases h
  | some parts =>
    simp only [classifyWww, hp] at h
    have hhost : ¬(parts.host ≠ WWW_DOMAIN) := by
      intro hne
      rw [if_pos hne] at h
      cases h
    rw [if_neg hhost] at h
    refine ⟨parts, rfl, not_ne_iff.mp hhost, ?_⟩
    intro hroot
    rw [if_neg (by rw [hroot]; exact Bool.false_ne_true)] at h
    have hany : subdomainDomains.any (fun d => chContains u.loc d) = false := by
      by_contra hc
      rw [Bool.not_eq_false] at hc
      rw [if_pos hc] at h
      cases h
    rw [List.any_eq_false] at hany
    constructor
    · have h1 := hany CITY_SUBDOMAIN (by decide)
      simpa using h1
    · have h2 := hany CAREERS_SUBDOMAIN (by decide)
      simpa using h2

/-- Counterexample to C1 as stated: a root entry whose query string
contains the city source subdomain passes validation (the root check runs
before the substring check) and is serialized, so its full location string
contains a configured source subdomain. -/
theorem c1_domain_invariant_counterexample :
    ((finalEntries
        [{ loc := "https://www.urbanpubsandbars.com/?from=city.urbanpubsandbars.com" }]).any
      fun u => chContains u.loc CITY_SUBDOMAIN) = true := by
  decide

/-- Claim C1 (amended): every entry the Builder serializes parses with
hostname equal to the canonical domain; every serialized entry that is not
classified as a root URL is free of both source subdomains as substrings
of its location string (a root entry may still carry a subdomain in its
query or fragment). -/
theorem c1_domain_invariant (allUrls : List SitemapUrl) (e : SitemapUrl)
    (he : e ∈ finalEntries allUrls) :
    ∃ parts, parseURL e.loc = some parts ∧ parts.host = WWW_DOMAIN ∧
      (isRootUrl e.loc parts.path = false →
        chContains e.loc CITY_SUBDOMAIN = false ∧
        chContains e.loc CAREERS_SUBDOMAIN = false) := by
  have hc : e ∈ completedUrls allUrls := mem_builderEntries_subset he
  rcases mem_foldl_ensureCity_inv hc with h2 | ⟨p, hp, rfl⟩
  · rcases mem_foldl_ensureMain_inv h2 with h3 | ⟨p, hp, rfl⟩
    · exact classify_good (List.mem_filter.mp h3).2
    · have hparse : ∀ q ∈ PROTECTED_PATHS,
          parseURL (BASE_URL ++ q) = some ⟨"https", WWW_DOMAIN, q, "", ""⟩ := by decide
      have hsub : ∀ q ∈ PROTECTED_PATHS,
          chContains (BASE_URL ++ q) CITY_SUBDOMAIN = false
            ∧ chContains (BASE_URL ++ q) CAREERS_SUBDOMAIN = false := by decide
      exact ⟨_, hparse p hp, rfl, fun _ => hsub p hp⟩
  · have hparse : ∀ q ∈ PROTECTED_PATHS.filter (fun r => r ≠ "/city-by-urban"),
        parseURL (BASE_URL ++ "/city-by-urban" ++ q)
          = some ⟨"https", WWW_DOMAIN, "/city-by-urban" ++ q, "", ""⟩ := by decide
    have hsub : ∀ q ∈ PROTECTED_PATHS.filter (fun r => r ≠ "/city-by-urban"),
        chContains (BASE_URL ++ "/city-by-urban" ++ q) CITY_SUBDOMAIN = false
          ∧ chContains (BASE_URL ++ "/city-by-urban" ++ q) CAREERS_SUBDOMAIN = false := by
      decide
    exact ⟨_, hparse p hp, rfl, fun _ => hsub p hp⟩

/-- Witness for the amended C1 at a synthesized protected-path entry. -/
theorem c1_domain_invariant_witness :
    ∃ parts, parseURL "https://www.urbanpubsandbars.com/city-by-urban" = some parts
      ∧ parts.host = WWW_DOMAIN
      ∧ (isRootUrl "https://www.urbanpubsandbars.com/city-by-urban" parts.path = false →
          chContains "https://www.urbanpubsandbars.com/city-by-urban" CITY_SUBDOMAIN = false
            ∧ chContains "https://www.urbanpubsandbars.com/city-by-urban"
                CAREERS_SUBDOMAIN = false) :=
  c1_domain_invariant [] { loc := "https://www.urbanpubsandbars.com/city-by-urban" }
    (by decide)

/-- Claim C10: in `validateUrlsAreWwwOnly`, every entry that parses with
the canonical hostname and pathname `/` or empty is classified valid
before the subdomain-substring check can reject it; consequently a root
entry whose full location string contains a configured source subdomain
(here in its query string) is still valid and survives into the Builder's
input. -/
theorem c10_root_bypass :
    (∀ (urls : List SitemapUrl) (u : SitemapUrl) (parts : URLParts),
      u ∈ urls → parseURL u.loc = some parts → parts.host = WWW_DOMAIN →
      parts.path = "/" ∨ parts.path = "" →
      u ∈ (validateUrlsAreWwwOnly urls).1) ∧
    (({ loc := "https://www.urbanpubsandbars.com/?utm=careers.urbanpubsandbars.com" }
        : SitemapUrl)
      ∈ completedUrls
          [{ loc := "https://www.urbanpubsandbars.com/?utm=careers.urbanpubsandbars.com" }]
      ∧ chContains "https://www.urbanpubsandbars.com/?utm=careers.urbanpubsandbars.com"
          CAREERS_SUBDOMAIN = true) := by
  constructor
  · intro urls u parts hu hp hhost hpath
    apply List.mem_filter.mpr
    refine ⟨hu, ?_⟩
    simp only [classifyWww, hp]
    have hroot : isRootUrl u.loc parts.path = true := by
      unfold isRootUrl
      rcases hpath with h1 | h1 <;> simp [h1]
    rw [if_neg (fun hne => hne hhost), if_pos hroot]
  · constructor
    · decide
    · decide

/-- Witness for C10's universal part at a concrete root entry. -/
theorem c10_root_bypass_witness :
    ({ loc := "https://www.urbanpubsandbars.com/" } : SitemapUrl)
      ∈ (validateUrlsAreWwwOnly [{ loc := "https://www.urbanpubsandbars.com/" }]).1 :=
  c10_root_bypass.1 [{ loc := "https://www.urbanpubsandbars.com/" }]
    { loc := "https://www.urbanpubsandbars.com/" }
    ⟨"https", "www.urbanpubsandbars.com", "/", "", ""⟩
    (by decide) (by decide) rfl (Or.inl rfl)
